import Mathlib

/-!
Verification of log_system: the statistics server (`stats/main.cpp`), the
`Stats` aggregator, the message queue and the two logger backends

A shallow embedding of the classification, aggregation, framing, reporting and
start-up code of the log statistics server, of the `Stats` class of
`tests/StatsTest.cpp`, of `LogQueue` and of the `log` functions of `Logger` and
`SocketLogger`.

Modelling conventions
* A `std::string` is the list of its bytes (`Str`), a byte being given by its
  value as a natural number; `size()` is the length of the list.
* `::toupper` and `isspace` are the "C" locale functions (the programs never
  call `setlocale`).
* `int` counters are integers and `size_t` values are natural numbers.  The
  sum of the lengths cannot leave `size_t` because every message is retained
  in `entries`; running an `int` counter past `INT_MAX` is undefined behaviour
  and is not modelled.  `SIZE_MAX` is `2^64 - 1`, `int` has 32 bits.
* `std::unordered_map<string,int>` is an association list without duplicate
  keys; the order of the keys carries no meaning.
* `time(nullptr)` is an oracle `clk : Nat → Int`: the `k`-th call made by the
  process returns `clk k`; the state counts the calls.  The formatted time of
  the loggers and the values returned by `recv` and `send` are parameters.
* Standard output is reduced to the sequence of statistics blocks written by
  `printStats`; the other lines written to `cout` never influence control.
* A division by zero in `totalMessages % N` aborts the process: the functions
  containing it return `none`.
* A function body that runs under a mutex is one step: `Stats::addEntry`, the
  critical section of `processLogLine`, `printStats`, and the three member
  functions of `LogQueue`.  A `pop` that has to wait is a step that is not
  enabled.
* The header `LogLevel.h` is not among the sources; the enumeration is taken
  with the three values the code uses, ordered `Error < Warning < Info`.
-/

namespace LogSystem

/-! ## Strings -/

/-- A `std::string`: the sequence of its bytes. -/
abbrev Str := List Nat

/-- The bytes of an ASCII string literal of the source. -/
def lit (s : String) : Str := s.toList.map Char.toNat

/-- The byte `'\n'`. -/
def NL : Nat := 10

/-- The byte `'\r'`. -/
def CR : Nat := 13

/-- `::toupper` in the "C" locale. -/
def toupper (c : Nat) : Nat := if 97 ≤ c ∧ c ≤ 122 then c - 32 else c

/-- Does `pat` occur in `s` at position 0 (`s.compare(0, pat.size(), pat) == 0`)? -/
def startsWith : Str → Str → Bool
  | _, [] => true
  | [], _ :: _ => false
  | c :: cs, p :: ps => c == p && startsWith cs ps

/-- `std::string::find(const char*)`: the first position at which `pat` occurs
in `s`, `none` standing for `npos`. -/
def find : Str → Str → Option Nat
  | [], pat => if pat.isEmpty then some 0 else none
  | c :: cs, pat =>
    if startsWith (c :: cs) pat then some 0
    else (find cs pat).map (· + 1)

/-- `std::string::find(char)`: the first position of the byte `c` in `s`. -/
def findChar : Str → Nat → Option Nat
  | [], _ => none
  | x :: xs, c => if x = c then some 0 else (findChar xs c).map (· + 1)

/-! ## Severity classifier (`stats/main.cpp`, `determineLevel`) -/

/-- `determineLevel`: upper-case the line, then test the keyword groups in
the order of the source; the last branch returns the literal `"unknown"`. -/
def determineLevel (line : Str) : Str :=
  let upperLine := line.map toupper
  if (find upperLine (lit "ERROR")).isSome
      || (find upperLine (lit "ERR")).isSome
      || (find upperLine (lit "FATAL")).isSome then
    lit "ERROR"
  else if (find upperLine (lit "WARNING")).isSome
      || (find upperLine (lit "WARN")).isSome
      || (find upperLine (lit "WRN")).isSome then
    lit "WARNING"
  else if (find upperLine (lit "INFO")).isSome
      || (find upperLine (lit "INFORMATION")).isSome then
    lit "INFO"
  else if (find upperLine (lit "DEBUG")).isSome
      || (find upperLine (lit "DBG")).isSome
      || (find upperLine (lit "TRACE")).isSome then
    lit "DEBUG"
  else
    lit "unknown"

/-! ## Log entries and the per-level map -/

/-- `struct LogEntry` (`include/logger/LogEntry.h`). -/
structure LogEntry where
  message : Str
  timestamp : Int
  level : Str
  deriving DecidableEq, Repr

/-- `std::unordered_map<std::string, int>`. -/
abbrev LevelMap := List (Str × Int)

/-- `m.find(k)`: the value stored under `k`, if the key is present. -/
def LevelMap.lookup : LevelMap → Str → Option Int
  | [], _ => none
  | (k', v) :: m, k => if k' = k then some v else LevelMap.lookup m k

/-- `m[k]++`: `operator[]` inserts the key with value 0 when it is absent,
then the value is incremented. -/
def LevelMap.increment : LevelMap → Str → LevelMap
  | [], k => [(k, 0 + 1)]
  | (k', v) :: m, k =>
    if k' = k then (k', v + 1) :: m else (k', v) :: LevelMap.increment m k

/-- `SIZE_MAX` on the 64-bit targets of the program. -/
def SIZE_MAX : Nat := 2 ^ 64 - 1

/-! ## The `Stats` class (`tests/StatsTest.cpp`) -/

/-- The data members of `class Stats`. -/
structure Stats where
  entries_ : List LogEntry
  totalMessages_ : Int
  levelCount_ : LevelMap
  minLen_ : Nat
  maxLen_ : Nat
  totalLen_ : Nat
  deriving DecidableEq, Repr

namespace Stats

/-- A default-constructed `Stats`. -/
def init : Stats :=
  { entries_ := [], totalMessages_ := 0, levelCount_ := [],
    minLen_ := SIZE_MAX, maxLen_ := 0, totalLen_ := 0 }

/-- `Stats::addEntry` (the body runs under the mutex `m_`). -/
def addEntry (s : Stats) (entry : LogEntry) : Stats :=
  { entries_ := s.entries_ ++ [entry],
    totalMessages_ := s.totalMessages_ + 1,
    levelCount_ := s.levelCount_.increment entry.level,
    minLen_ := min s.minLen_ entry.message.length,
    maxLen_ := max s.maxLen_ entry.message.length,
    totalLen_ := s.totalLen_ + entry.message.length }

/-- `Stats::totalMessages`. -/
def totalMessages (s : Stats) : Int := s.totalMessages_

/-- `Stats::countByLevel`: the stored count, 0 when the level is absent. -/
def countByLevel (s : Stats) (level : Str) : Int :=
  match s.levelCount_.lookup level with
  | some c => c
  | none => 0

/-- `Stats::minLength`. -/
def minLength (s : Stats) : Nat := if s.totalMessages_ = 0 then 0 else s.minLen_

/-- `Stats::maxLength`. -/
def maxLength (s : Stats) : Nat := s.maxLen_

/-- `Stats::avgLength`; the quotient of the `double` division is taken
exactly, as a rational number. -/
def avgLength (s : Stats) : ℚ :=
  if s.totalMessages_ = 0 then 0 else (s.totalLen_ : ℚ) / (s.totalMessages_ : ℚ)

/-- The calls `addEntry(e)` for the entries of `es`, in order, on a
default-constructed `Stats`. -/
def addAll (es : List LogEntry) : Stats := es.foldl Stats.addEntry Stats.init

end Stats

/-! ## The aggregator of the server (globals of `stats/main.cpp`) -/

/-- One statistics block written by `printStats`. -/
structure Report where
  totalMessages : Int
  byLevel : LevelMap
  lastHour : Int
  lengths : Option (Nat × Nat × Nat)
  deriving DecidableEq, Repr

/-- The global variables of `stats/main.cpp`, the statistics blocks written
so far, and the number of `time(nullptr)` calls made so far. -/
structure ServerState where
  entries : List LogEntry
  totalMessages : Int
  levelCount : LevelMap
  minLen : Nat
  maxLen : Nat
  totalLen : Nat
  updated : Bool
  reports : List Report
  clockReads : Nat
  deriving DecidableEq, Repr

namespace ServerState

/-- The globals as initialised at program start. -/
def init : ServerState :=
  { entries := [], totalMessages := 0, levelCount := [],
    minLen := SIZE_MAX, maxLen := 0, totalLen := 0,
    updated := false, reports := [], clockReads := 0 }

end ServerState

/-- `printStats`: write one block (total, per-level counts, last-hour count,
and min/max/avg lengths when `totalMessages > 0`), then clear `updated`.
In `totalLen / totalMessages` the positive `int` is converted to `size_t`. -/
def printStats (clk : Nat → Int) (st : ServerState) : ServerState :=
  let now := clk st.clockReads
  let countLastHour : Int :=
    (st.entries.countP (fun e => decide (now - e.timestamp ≤ 3600)) : Nat)
  let lengths :=
    if st.totalMessages > 0 then
      some (st.minLen, st.maxLen, st.totalLen / st.totalMessages.toNat)
    else none
  { st with
    reports := st.reports ++
      [{ totalMessages := st.totalMessages, byLevel := st.levelCount,
         lastHour := countLastHour, lengths := lengths }],
    updated := false,
    clockReads := st.clockReads + 1 }

/-- One iteration of the loop of `statsTimer`, after the sleep. -/
def statsTimerTick (clk : Nat → Int) (st : ServerState) : ServerState :=
  if st.updated then printStats clk st else st

/-- The critical section of `processLogLine` (source lines 127-139). -/
def recordEntry (e : LogEntry) (st : ServerState) : ServerState :=
  { st with
    entries := st.entries ++ [e],
    levelCount := st.levelCount.increment e.level,
    totalMessages := st.totalMessages + 1,
    minLen := min st.minLen e.message.length,
    maxLen := max st.maxLen e.message.length,
    totalLen := st.totalLen + e.message.length,
    updated := true }

/-- The critical section of `processLogLine` run for the entries of `es`, in
order, from the initial globals. -/
def recordAll (es : List LogEntry) : ServerState :=
  es.foldl (fun st e => recordEntry e st) ServerState.init

/-- `processLogLine`: an empty line returns at once; otherwise the clock is
read, the line is classified and the entry is recorded. -/
def processLogLine (clk : Nat → Int) (line : Str) (st : ServerState) : ServerState :=
  if line.isEmpty then st
  else
    let now := clk st.clockReads
    let level := determineLevel line
    recordEntry { message := line, timestamp := now, level := level }
      { st with clockReads := st.clockReads + 1 }

/-- The statement `if (totalMessages % N == 0) printStats();` of `handleClient`;
`%` on `int` truncates towards zero and `N = 0` aborts. -/
def reportEveryN (clk : Nat → Int) (N : Int) (st : ServerState) : Option ServerState :=
  if N = 0 then none
  else if Int.tmod st.totalMessages N = 0 then some (printStats clk st)
  else some st

/-! ## Line framing and the connection handler (`handleClient`) -/

/-- The `'\r'` removal of `handleClient`:
`if (!line.empty() && line.back() == '\r') line.pop_back();`. -/
def stripCR (line : Str) : Str :=
  if !line.isEmpty && line.getLast? == some CR then line.dropLast else line

/-- The framing part of the inner `while` loop of `handleClient`: as long as
`leftover` holds a `'\n'`, cut the text before it (`substr(0, pos)`), erase it
with the `'\n'` (`erase(0, pos + 1)`) and strip one `'\r'`.  Returns the lines
in the order they are handed to `processLogLine`, and the final `leftover`.
Every round erases at least one byte, so `fuel = leftover.size()` suffices. -/
def frameLoop : Nat → Str → List Str × Str
  | 0, leftover => ([], leftover)
  | fuel + 1, leftover =>
    match findChar leftover NL with
    | none => ([], leftover)
    | some pos =>
      let line := leftover.take pos
      let rest := leftover.drop (pos + 1)
      let r := frameLoop fuel rest
      (stripCR line :: r.1, r.2)

/-- One pass of the data branch of `handleClient` without the processing:
`leftover.append(buffer, bytes)` followed by the extraction loop. -/
def feed (leftover chunk : Str) : List Str × Str :=
  frameLoop (leftover ++ chunk).length (leftover ++ chunk)

/-- The framing of a sequence of received chunks: the lines produced so far
and the leftover carried from one `recv` to the next. -/
def feedChunks : List Str × Str → List Str → List Str × Str
  | acc, [] => acc
  | (lines, leftover), chunk :: chunks =>
    let r := feed leftover chunk
    feedChunks (lines ++ r.1, r.2) chunks

/-- The inner `while` loop of `handleClient` (source lines 187-202): every
extracted line goes to `processLogLine`, followed by the every-N check. -/
def drainLines (clk : Nat → Int) (N : Int) :
    Nat → Str → ServerState → Option (Str × ServerState)
  | 0, leftover, st => some (leftover, st)
  | fuel + 1, leftover, st =>
    match findChar leftover NL with
    | none => some (leftover, st)
    | some pos =>
      let line := leftover.take pos
      let rest := leftover.drop (pos + 1)
      match reportEveryN clk N (processLogLine clk (stripCR line) st) with
      | none => none
      | some st1 => drainLines clk N fuel rest st1

/-- What one call of `recv` hands to `handleClient`: `bytes > 0` with the
received data, `bytes == 0`, `bytes < 0` with `EAGAIN`/`EWOULDBLOCK`, or
`bytes < 0` with another error. -/
inductive RecvResult where
  | data (bytes : Str)
  | closed
  | wouldBlock
  | failed
  deriving DecidableEq, Repr

/-- The state of one connection handler: its partial-line buffer and whether
the receive loop has been left. -/
structure Conn where
  leftover : Str
  finished : Bool
  deriving DecidableEq, Repr

/-- The receive loop of `handleClient` run against the successive results of
`recv`.  When the results are used up the handler is blocked in `recv`
(`finished = false`). -/
def handleClient (clk : Nat → Int) (N : Int) :
    List RecvResult → Str → ServerState → Option (Conn × ServerState)
  | [], leftover, st => some ({ leftover := leftover, finished := false }, st)
  | RecvResult.wouldBlock :: rs, leftover, st => handleClient clk N rs leftover st
  | RecvResult.failed :: _, leftover, st =>
    some ({ leftover := leftover, finished := true }, st)
  | RecvResult.closed :: _, leftover, st =>
    if !leftover.isEmpty then
      match reportEveryN clk N (processLogLine clk leftover st) with
      | none => none
      | some st1 => some ({ leftover := leftover, finished := true }, st1)
    else some ({ leftover := leftover, finished := true }, st)
  | RecvResult.data bytes :: rs, leftover, st =>
    let buf := leftover ++ bytes
    match drainLines clk N buf.length buf st with
    | none => none
    | some (rest, st1) => handleClient clk N rs rest st1

/-- The steps that act on the aggregator: a `processLogLine` call of some
handler, or a `printStats` call (from a handler or from the timer). -/
inductive Reachable (clk : Nat → Int) : ServerState → Prop where
  | init : Reachable clk ServerState.init
  | line (st : ServerState) (l : Str) :
      Reachable clk st → Reachable clk (processLogLine clk l st)
  | stats (st : ServerState) :
      Reachable clk st → Reachable clk (printStats clk st)

/-! ## Start-up of the server (`main` of `stats/main.cpp`) -/

/-- `INT_MAX` of the 32-bit `int`. -/
def INT_MAX : Int := 2 ^ 31 - 1

/-- `INT_MIN` of the 32-bit `int`. -/
def INT_MIN : Int := -(2 ^ 31)

/-- `isspace` in the "C" locale: space, `\t`, `\n`, `\v`, `\f`, `\r`. -/
def isspace (c : Nat) : Bool := c == 32 || (9 ≤ c && c ≤ 13)

/-- `isdigit`: the bytes `0`..`9`. -/
def isdigit (c : Nat) : Bool := 48 ≤ c && c ≤ 57

/-- What a call of `std::stoi` does: return a value, or throw
`std::invalid_argument` or `std::out_of_range`. -/
inductive StoiResult where
  | value (v : Int)
  | invalid_argument
  | out_of_range
  deriving DecidableEq, Repr

/-- `std::stoi(str)` (base 10, through `strtol`): leading white space is
skipped, one sign is accepted, then the longest run of digits is converted;
what follows the digits is ignored.  No digit: `invalid_argument`; a value
outside `int`: `out_of_range`. -/
def stoi (str : Str) : StoiResult :=
  let s1 := str.dropWhile isspace
  let negative := s1.head? == some 45
  let s2 := if s1.head? == some 45 || s1.head? == some 43 then s1.tail else s1
  let digits := s2.takeWhile isdigit
  if digits.isEmpty then StoiResult.invalid_argument
  else
    let magnitude : Int := (digits.foldl (fun acc d => 10 * acc + (d - 48)) 0 : Nat)
    let v : Int := if negative then -magnitude else magnitude
    if v < INT_MIN ∨ INT_MAX < v then StoiResult.out_of_range
    else StoiResult.value v

/-- How the start-up part of `main` ends: the usage text was written and `main`
returned `status`; or an exception thrown by `stoi` left `main` uncaught
(`std::terminate`); or the three parameters were read, upon which `main` starts
the timer thread with `T`, creates and binds the socket on `port`, and hands
`N` to every connection handler. -/
inductive Startup where
  | usage (status : Int)
  | terminated
  | started (port N T : Int)
  deriving DecidableEq, Repr

/-- `main` up to the start of the timer thread (source lines 211-234); `argv`
holds the program name and the parameters, `argc` is its length. -/
def main (argv : List Str) : Startup :=
  if argv.length < 4 then Startup.usage 1
  else
    match stoi (argv.getD 1 []) with
    | StoiResult.value port =>
      match stoi (argv.getD 2 []) with
      | StoiResult.value N =>
        match stoi (argv.getD 3 []) with
        | StoiResult.value T => Startup.started port N T
        | _ => Startup.terminated
      | _ => Startup.terminated
    | _ => Startup.terminated

/-! ## The loggers and the queue between them (`include/logger`, `src`) -/

/-- Modelled from the spec: the enumeration `LogLevel` of
`include/logger/LogLevel.h`, a header that is not among the sources.  Its three
values are those used by `Logger::logLevelToString`, `SocketLogger::log` and
`parseLevel`. -/
inductive LogLevel where
  | Error
  | Warning
  | Info
  deriving DecidableEq, Repr

/-- Modelled from the spec: the underlying values of `LogLevel`, ordered as the
comment of `Logger::log` ("a higher level is less important") and the test
`LoggerTest.LoggingLevels` require: `Error < Warning < Info`. -/
def LogLevel.toInt : LogLevel → Int
  | LogLevel.Error => 0
  | LogLevel.Warning => 1
  | LogLevel.Info => 2

/-- `struct LogMessage` (`include/logger/Logger.h`). -/
structure LogMessage where
  text : Str
  level : LogLevel
  deriving DecidableEq, Repr

/-- The data members of `class LogQueue`: the pending messages, oldest first,
and the closed flag. -/
structure LogQueue where
  q_ : List LogMessage
  closed_ : Bool
  deriving DecidableEq, Repr

namespace LogQueue

/-- A default-constructed `LogQueue`. -/
def init : LogQueue := { q_ := [], closed_ := false }

/-- `LogQueue::push`: `q_.push(msg)`, whatever `closed_` is. -/
def push (s : LogQueue) (msg : LogMessage) : LogQueue :=
  { s with q_ := s.q_ ++ [msg] }

/-- `LogQueue::pop`, as one step under the mutex.  `none`: the wait predicate
`!q_.empty() || closed_` is false and the caller stays blocked.  Otherwise the
returned `std::optional` and the queue after the call. -/
def pop (s : LogQueue) : Option (Option LogMessage × LogQueue) :=
  match s.q_, s.closed_ with
  | [], false => none
  | [], true => some (none, s)
  | msg :: rest, _ => some (some msg, { s with q_ := rest })

/-- `LogQueue::close`. -/
def close (s : LogQueue) : LogQueue := { s with closed_ := true }

end LogQueue

/-- One completed call on a `LogQueue`. -/
inductive QueueOp where
  | push (msg : LogMessage)
  | pop
  | close
  deriving DecidableEq, Repr

/-- The calls of `ops` completing in this order on the queue `s`: the values
returned by the `pop` calls, in order, and the final queue.  `none` when a
`pop` would have to complete while the queue is empty and open, which cannot
happen. -/
def LogQueue.exec : LogQueue → List QueueOp → Option (List (Option LogMessage) × LogQueue)
  | s, [] => some ([], s)
  | s, QueueOp.push msg :: ops => LogQueue.exec (s.push msg) ops
  | s, QueueOp.close :: ops => LogQueue.exec s.close ops
  | s, QueueOp.pop :: ops =>
    match s.pop with
    | none => none
    | some (r, s1) =>
      match LogQueue.exec s1 ops with
      | none => none
      | some (rs, s2) => some (r :: rs, s2)

/-- `Logger::logLevelToString`. -/
def logLevelToString : LogLevel → Str
  | LogLevel.Error => lit "ERROR"
  | LogLevel.Warning => lit "WARNING"
  | LogLevel.Info => lit "INFO"

/-- The line written for one message by both backends:
`[time] [LEVEL] message` followed by `'\n'`. -/
def formatRecord (time : Str) (level : LogLevel) (message : Str) : Str :=
  lit "[" ++ time ++ lit "] " ++ lit "[" ++ logLevelToString level ++ lit "] "
    ++ message ++ [NL]

/-- The data members of `class Logger`: whether `logFile_` is open, what has
been appended to the file, and the threshold. -/
structure Logger where
  isOpen : Bool
  written : Str
  currentLevel_ : LogLevel
  deriving DecidableEq, Repr

namespace Logger

/-- The constructor: `opened` tells whether the file could be opened. -/
def create (opened : Bool) (level : LogLevel) : Logger :=
  { isOpen := opened, written := [], currentLevel_ := level }

/-- `Logger::log`; `time` is the text returned by `getCurrentTime`. -/
def log (time : Str) (s : Logger) (message : Str) (level : LogLevel) : Logger :=
  if level.toInt > s.currentLevel_.toInt then s
  else if s.isOpen then { s with written := s.written ++ formatRecord time level message }
  else s

/-- `Logger::setLogLevel`. -/
def setLogLevel (s : Logger) (level : LogLevel) : Logger := { s with currentLevel_ := level }

/-- `Logger::getLogLevel`. -/
def getLogLevel (s : Logger) : LogLevel := s.currentLevel_

end Logger

/-- The loop `while (totalSent < toSend)` of `SocketLogger::log`: `results` are
the values returned by the successive calls of `send` (`-1` for an error, else
the number of bytes taken); the value of `totalSent` when the loop is left, or
when `send` no longer returns. -/
def sendLoop (toSend : Nat) : List Int → Nat → Nat
  | [], totalSent => totalSent
  | sent :: results, totalSent =>
    if totalSent < toSend then
      if sent = -1 then totalSent
      else sendLoop toSend results (totalSent + sent.toNat)
    else totalSent

/-- The data members of `class SocketLogger`, and the bytes that the peer has
been sent. -/
structure SocketLogger where
  sock_ : Int
  logLevel_ : LogLevel
  sentBytes : Str
  deriving DecidableEq, Repr

namespace SocketLogger

/-- The constructor: `sock` is the descriptor left in `sock_` (`-1` when the
socket could not be created or connected). -/
def create (sock : Int) (defaultLevel : LogLevel) : SocketLogger :=
  { sock_ := sock, logLevel_ := defaultLevel, sentBytes := [] }

/-- `SocketLogger::log`; `time` is the formatted current time and `results`
are the values returned by the calls of `send`. -/
def log (time : Str) (results : List Int) (s : SocketLogger) (message : Str)
    (level : LogLevel) : SocketLogger :=
  if level.toInt > s.logLevel_.toInt || s.sock_ < 0 then s
  else
    let out := formatRecord time level message
    { s with sentBytes := s.sentBytes ++ out.take (sendLoop out.length results 0) }

/-- `SocketLogger::setLogLevel`. -/
def setLogLevel (s : SocketLogger) (level : LogLevel) : SocketLogger :=
  { s with logLevel_ := level }

/-- `SocketLogger::getLogLevel`. -/
def getLogLevel (s : SocketLogger) : LogLevel := s.logLevel_

end SocketLogger

/-! ## Facts about the string primitives -/

theorem startsWith_iff (s pat : Str) : startsWith s pat = true ↔ pat <+: s := by
  induction pat generalizing s with
  | nil => simp [startsWith]
  | cons p ps ih =>
    cases s with
    | nil => simp [startsWith]
    | cons c cs =>
      simp only [startsWith, Bool.and_eq_true, beq_iff_eq, ih, List.cons_prefix_cons]
      exact ⟨fun h => ⟨h.1.symm, h.2⟩, fun h => ⟨h.1.symm, h.2⟩⟩

/-- `find` succeeds exactly when the pattern is a contiguous part of the text. -/
theorem find_isSome_iff (s pat : Str) : (find s pat).isSome = true ↔ pat <:+: s := by
  induction s with
  | nil =>
    cases pat with
    | nil => simp [find]
    | cons p ps => simp [find]
  | cons c cs ih =>
    unfold find
    by_cases h : startsWith (c :: cs) pat = true
    · simp only [h, if_true, Option.isSome_some, true_iff]
      exact List.IsPrefix.isInfix ((startsWith_iff _ _).1 h)
    · simp only [h, Option.isSome_map, ih, List.infix_cons_iff]
      rw [← startsWith_iff]
      simp [h, ih]

/-! ## Severity classifier -/

theorem determineLevel_upper (line : Str) :
    ((lit "ERROR" <:+: line.map toupper ∨ lit "ERR" <:+: line.map toupper
        ∨ lit "FATAL" <:+: line.map toupper) →
      determineLevel line = lit "ERROR") ∧
    (¬ (lit "ERROR" <:+: line.map toupper ∨ lit "ERR" <:+: line.map toupper
        ∨ lit "FATAL" <:+: line.map toupper) →
      (lit "WARNING" <:+: line.map toupper ∨ lit "WARN" <:+: line.map toupper
        ∨ lit "WRN" <:+: line.map toupper) →
      determineLevel line = lit "WARNING") ∧
    (¬ (lit "ERROR" <:+: line.map toupper ∨ lit "ERR" <:+: line.map toupper
        ∨ lit "FATAL" <:+: line.map toupper) →
      ¬ (lit "WARNING" <:+: line.map toupper ∨ lit "WARN" <:+: line.map toupper
        ∨ lit "WRN" <:+: line.map toupper) →
      (lit "INFO" <:+: line.map toupper ∨ lit "INFORMATION" <:+: line.map toupper) →
      determineLevel line = lit "INFO") ∧
    (¬ (lit "ERROR" <:+: line.map toupper ∨ lit "ERR" <:+: line.map toupper
        ∨ lit "FATAL" <:+: line.map toupper) →
      ¬ (lit "WARNING" <:+: line.map toupper ∨ lit "WARN" <:+: line.map toupper
        ∨ lit "WRN" <:+: line.map toupper) →
      ¬ (lit "INFO" <:+: line.map toupper ∨ lit "INFORMATION" <:+: line.map toupper) →
      (lit "DEBUG" <:+: line.map toupper ∨ lit "DBG" <:+: line.map toupper
        ∨ lit "TRACE" <:+: line.map toupper) →
      determineLevel line = lit "DEBUG") ∧
    (∀ other : Str, other.map toupper = line.map toupper →
      determineLevel other = determineLevel line) := by
  refine ⟨?_, ?_, ?_, ?_, ?_⟩
  · simp only [← find_isSome_iff]
    intro h
    unfold determineLevel
    simp only [Bool.or_eq_true]
    rw [if_pos (by tauto)]
  · simp only [← find_isSome_iff]
    intro h1 h2
    unfold determineLevel
    simp only [Bool.or_eq_true]
    rw [if_neg (by tauto), if_pos (by tauto)]
  · simp only [← find_isSome_iff]
    intro h1 h2 h3
    unfold determineLevel
    simp only [Bool.or_eq_true]
    rw [if_neg (by tauto), if_neg (by tauto), if_pos (by tauto)]
  · simp only [← find_isSome_iff]
    intro h1 h2 h3 h4
    unfold determineLevel
    simp only [Bool.or_eq_true]
    rw [if_neg (by tauto), if_neg (by tauto), if_neg (by tauto), if_pos (by tauto)]
  · intro other h
    unfold determineLevel
    simp only [h]

/-- `toupper` sends a byte to a given capital letter exactly when the byte is
that capital or the matching small letter. -/
theorem toupper_eq_capital_iff (a b : Nat) (hb : 65 ≤ b ∧ b ≤ 90) :
    toupper a = b ↔ a = b ∨ a = b + 32 := by
  unfold toupper
  split <;> omega

theorem map_toupper_eq_iff (w k : Str) (hk : ∀ b ∈ k, 65 ≤ b ∧ b ≤ 90) :
    w.map toupper = k ↔ List.Forall₂ (fun a b => a = b ∨ a = b + 32) w k := by
  induction w generalizing k with
  | nil =>
    cases k with
    | nil => simp
    | cons b k => simp
  | cons a w ih =>
    cases k with
    | nil => simp
    | cons b k =>
      have hb := hk b (by simp)
      have hk' : ∀ x ∈ k, 65 ≤ x ∧ x ≤ 90 := fun x hx => hk x (by simp [hx])
      simp only [List.map_cons, List.cons.injEq, List.forall₂_cons,
        toupper_eq_capital_iff a b hb, ih k hk']

theorem infix_map_iff (f : Nat → Nat) (k l : Str) :
    k <:+: l.map f ↔ ∃ w : Str, w <:+: l ∧ w.map f = k := by
  constructor
  · rintro ⟨s, t, h⟩
    obtain ⟨l1, l3, rfl, h1, rfl⟩ := List.map_eq_append_iff.1 h.symm
    obtain ⟨l0, l2, rfl, rfl, rfl⟩ := List.map_eq_append_iff.1 h1
    exact ⟨l2, ⟨l0, l3, rfl⟩, rfl⟩
  · rintro ⟨w, hw, rfl⟩
    exact List.IsInfix.map f hw

/-- Two bytes that are the same letter in different cases, or equal, have the
same upper-case form. -/
theorem toupper_eq_of_sameLetter (a b : Nat)
    (h : a = b ∨ (65 ≤ b ∧ b ≤ 90 ∧ a = b + 32) ∨ (65 ≤ a ∧ a ≤ 90 ∧ b = a + 32)) :
    toupper a = toupper b := by
  unfold toupper
  split <;> split <;> omega

theorem map_toupper_eq_of_sameLetters (u v : Str)
    (h : List.Forall₂ (fun a b => a = b ∨ (65 ≤ b ∧ b ≤ 90 ∧ a = b + 32)
      ∨ (65 ≤ a ∧ a ≤ 90 ∧ b = a + 32)) u v) :
    u.map toupper = v.map toupper := by
  induction h with
  | nil => rfl
  | cons hab _ ih => simp only [List.map_cons, toupper_eq_of_sameLetter _ _ hab, ih]

/-- C1: `determineLevel` returns the first class, in the order ERROR, WARNING,
INFO, DEBUG, one of whose keywords is a contiguous part of the upper-cased
line, wherever it occurs; a line with an ERROR keyword is ERROR whatever else
it contains.  A keyword is part of the upper-cased line exactly when the line
itself holds it, anywhere, with each letter in either case, `toupper` turning
the small letters `a`..`z` into capitals and nothing else; two lines that
differ only in the case of letters get the same level; and "WARN ... error"
is ERROR. -/
theorem determineLevel_priority (line : Str) :
    ((lit "ERROR" <:+: line.map toupper ∨ lit "ERR" <:+: line.map toupper
        ∨ lit "FATAL" <:+: line.map toupper) →
      determineLevel line = lit "ERROR") ∧
    (¬ (lit "ERROR" <:+: line.map toupper ∨ lit "ERR" <:+: line.map toupper
        ∨ lit "FATAL" <:+: line.map toupper) →
      (lit "WARNING" <:+: line.map toupper ∨ lit "WARN" <:+: line.map toupper
        ∨ lit "WRN" <:+: line.map toupper) →
      determineLevel line = lit "WARNING") ∧
    (¬ (lit "ERROR" <:+: line.map toupper ∨ lit "ERR" <:+: line.map toupper
        ∨ lit "FATAL" <:+: line.map toupper) →
      ¬ (lit "WARNING" <:+: line.map toupper ∨ lit "WARN" <:+: line.map toupper
        ∨ lit "WRN" <:+: line.map toupper) →
      (lit "INFO" <:+: line.map toupper ∨ lit "INFORMATION" <:+: line.map toupper) →
      determineLevel line = lit "INFO") ∧
    (¬ (lit "ERROR" <:+: line.map toupper ∨ lit "ERR" <:+: line.map toupper
        ∨ lit "FATAL" <:+: line.map toupper) →
      ¬ (lit "WARNING" <:+: line.map toupper ∨ lit "WARN" <:+: line.map toupper
        ∨ lit "WRN" <:+: line.map toupper) →
      ¬ (lit "INFO" <:+: line.map toupper ∨ lit "INFORMATION" <:+: line.map toupper) →
      (lit "DEBUG" <:+: line.map toupper ∨ lit "DBG" <:+: line.map toupper
        ∨ lit "TRACE" <:+: line.map toupper) →
      determineLevel line = lit "DEBUG") ∧
    ((lit "ERROR" <:+: line.map toupper ∨ lit "ERR" <:+: line.map toupper
        ∨ lit "FATAL" <:+: line.map toupper) ∧
      (lit "WARNING" <:+: line.map toupper ∨ lit "WARN" <:+: line.map toupper
        ∨ lit "WRN" <:+: line.map toupper) →
      determineLevel line = lit "ERROR") ∧
    (∀ other : Str, other.map toupper = line.map toupper →
      determineLevel other = determineLevel line) ∧
    (∀ w : Str, w <:+: line →
      (w.map toupper = lit "ERROR" ∨ w.map toupper = lit "ERR"
        ∨ w.map toupper = lit "FATAL") →
      determineLevel line = lit "ERROR") ∧
    ((∀ c : Nat, 97 ≤ c → c ≤ 122 → toupper c + 32 = c) ∧
      (∀ c : Nat, c < 97 ∨ 122 < c → toupper c = c)) ∧
    (∀ k ∈ [lit "ERROR", lit "ERR", lit "FATAL", lit "WARNING", lit "WARN", lit "WRN",
        lit "INFO", lit "INFORMATION", lit "DEBUG", lit "DBG", lit "TRACE"],
      (k <:+: line.map toupper ↔
        ∃ w : Str, w <:+: line ∧ List.Forall₂ (fun a b => a = b ∨ a = b + 32) w k)) ∧
    (∀ other : Str,
      List.Forall₂ (fun a b => a = b ∨ (65 ≤ b ∧ b ≤ 90 ∧ a = b + 32)
        ∨ (65 ≤ a ∧ a ≤ 90 ∧ b = a + 32)) other line →
      determineLevel other = determineLevel line) ∧
    (determineLevel (lit "WARN ... error") = lit "ERROR" ∧
      determineLevel (lit "low memory warning, err=0") = lit "ERROR" ∧
      determineLevel (lit "Warn: disk") = lit "WARNING" ∧
      determineLevel (lit "for your information") = lit "INFO" ∧
      determineLevel (lit "trace x") = lit "DEBUG") := by
  obtain ⟨hE, hW, hI, hD, hcase⟩ := determineLevel_upper line
  refine ⟨hE, hW, hI, hD, fun h => hE h.1, hcase, fun w hw hk => ?_, ⟨?_, ?_⟩, ?_, ?_, by decide⟩
  · have hinf := List.IsInfix.map toupper hw
    rcases hk with hk | hk | hk
    · rw [hk] at hinf; exact hE (Or.inl hinf)
    · rw [hk] at hinf; exact hE (Or.inr (Or.inl hinf))
    · rw [hk] at hinf; exact hE (Or.inr (Or.inr hinf))
  · intro c h1 h2
    unfold toupper
    rw [if_pos ⟨h1, h2⟩]
    omega
  · intro c h
    unfold toupper
    rw [if_neg (by omega)]
  · intro k hk
    have hcap : ∀ b ∈ k, 65 ≤ b ∧ b ≤ 90 := by
      have hall : ∀ k ∈ [lit "ERROR", lit "ERR", lit "FATAL", lit "WARNING", lit "WARN",
          lit "WRN", lit "INFO", lit "INFORMATION", lit "DEBUG", lit "DBG", lit "TRACE"],
          ∀ b ∈ k, 65 ≤ b ∧ b ≤ 90 := by decide
      exact hall k hk
    rw [infix_map_iff]
    constructor
    · rintro ⟨w, hw, hmap⟩
      exact ⟨w, hw, (map_toupper_eq_iff w k hcap).1 hmap⟩
    · rintro ⟨w, hw, hrel⟩
      exact ⟨w, hw, (map_toupper_eq_iff w k hcap).2 hrel⟩
  · intro other h
    exact hcase other (map_toupper_eq_of_sameLetters other line h)

/-- C2: the line "normal operation" holds none of the eleven keywords, and
`determineLevel` returns for it the lower-case literal "unknown", which is not
the tag "UNKNOWN". -/
theorem determineLevel_unknown_spelling :
    ([lit "ERROR", lit "ERR", lit "FATAL", lit "WARNING", lit "WARN", lit "WRN",
        lit "INFO", lit "INFORMATION", lit "DEBUG", lit "DBG", lit "TRACE"].all
      (fun k => (find ((lit "normal operation").map toupper) k).isNone)) = true ∧
    determineLevel (lit "normal operation") = lit "unknown" ∧
    determineLevel (lit "normal operation") ≠ lit "UNKNOWN" := by
  decide

/-! ## Line framing -/

theorem findChar_eq_none_iff (s : Str) (c : Nat) : findChar s c = none ↔ c ∉ s := by
  induction s with
  | nil => simp [findChar]
  | cons x xs ih =>
    unfold findChar
    by_cases h : x = c
    · simp [h]
    · simp only [h, if_false, Option.map_eq_none', ih, List.mem_cons]
      constructor
      · intro h1 h2
        rcases h2 with h2 | h2
        · exact h h2.symm
        · exact h1 h2
      · intro h1 h2
        exact h1 (Or.inr h2)

/-- Where `findChar` finds the byte: the text before the position is free of it. -/
theorem findChar_some (s : Str) (c pos : Nat) (h : findChar s c = some pos) :
    s = s.take pos ++ c :: s.drop (pos + 1) ∧ c ∉ s.take pos := by
  induction s generalizing pos with
  | nil => simp [findChar] at h
  | cons x xs ih =>
    unfold findChar at h
    by_cases hx : x = c
    · simp only [hx, if_true, Option.some.injEq] at h
      subst h
      simp [hx]
    · simp only [hx, if_false, Option.map_eq_some'] at h
      obtain ⟨p, hp, rfl⟩ := h
      obtain ⟨h1, h2⟩ := ih p hp
      refine ⟨?_, ?_⟩
      · simp only [List.take_succ_cons, List.drop_succ_cons, List.cons_append]
        rw [← h1]
      · simp only [List.take_succ_cons, List.mem_cons, not_or]
        exact ⟨fun h => hx h.symm, h2⟩

/-- The first occurrence in `a ++ b` is the first occurrence in `a`, if any. -/
theorem findChar_append_some (a b : Str) (c pos : Nat) (h : findChar a c = some pos) :
    findChar (a ++ b) c = some pos := by
  induction a generalizing pos with
  | nil => simp [findChar] at h
  | cons x xs ih =>
    simp only [List.cons_append]
    unfold findChar at h ⊢
    by_cases hx : x = c
    · simpa [hx] using h
    · simp only [hx, if_false, Option.map_eq_some'] at h ⊢
      obtain ⟨p, hp, rfl⟩ := h
      exact ⟨p, ih p hp, rfl⟩

theorem findChar_lt_length (s : Str) (c pos : Nat) (h : findChar s c = some pos) :
    pos < s.length := by
  induction s generalizing pos with
  | nil => simp [findChar] at h
  | cons x xs ih =>
    unfold findChar at h
    by_cases hx : x = c
    · simp only [hx, if_true, Option.some.injEq] at h
      subst h
      simp
    · simp only [hx, if_false, Option.map_eq_some'] at h
      obtain ⟨p, hp, rfl⟩ := h
      have := ih p hp
      simp only [List.length_cons]
      omega

/-- One round of the extraction loop, for any sufficient fuel. -/
theorem frameLoop_none (fuel : Nat) (s : Str) (h : findChar s NL = none) :
    frameLoop fuel s = ([], s) := by
  cases fuel with
  | zero => rfl
  | succ n => simp [frameLoop, h]

theorem frameLoop_some (fuel : Nat) (s : Str) (pos : Nat) (hf : s.length ≤ fuel)
    (h : findChar s NL = some pos) :
    frameLoop fuel s =
      (stripCR (s.take pos) :: (frameLoop (fuel - 1) (s.drop (pos + 1))).1,
        (frameLoop (fuel - 1) (s.drop (pos + 1))).2) := by
  have hlt := findChar_lt_length s NL pos h
  cases fuel with
  | zero => omega
  | succ n => simp [frameLoop, h]

/-- The result of the extraction loop does not depend on the fuel, once the
fuel covers the length of the buffer. -/
theorem frameLoop_fuel (f g : Nat) (s : Str) (hf : s.length ≤ f) (hg : s.length ≤ g) :
    frameLoop f s = frameLoop g s := by
  induction f generalizing g s with
  | zero =>
    have h0 : s = [] := List.length_eq_zero.1 (by omega)
    subst h0
    rw [frameLoop_none 0 [] rfl, frameLoop_none g [] rfl]
  | succ n ih =>
    cases hfind : findChar s NL with
    | none => rw [frameLoop_none _ _ hfind, frameLoop_none _ _ hfind]
    | some pos =>
      have hlt := findChar_lt_length s NL pos hfind
      rw [frameLoop_some _ _ pos hf hfind, frameLoop_some _ _ pos hg hfind]
      have h1 : (s.drop (pos + 1)).length ≤ n := by
        simp only [List.length_drop]; omega
      have h2 : (s.drop (pos + 1)).length ≤ g - 1 := by
        simp only [List.length_drop]; omega
      simp only [Nat.add_sub_cancel]
      rw [ih (g - 1) _ h1 h2]

/-- Feeding `a ++ b` gives the lines of `a` followed by the lines obtained from
what `a` left over, extended by `b`. -/
theorem frameLoop_append (f : Nat) (a b : Str) (hf : a.length ≤ f) :
    frameLoop (a ++ b).length (a ++ b) =
      ((frameLoop f a).1 ++
          (frameLoop ((frameLoop f a).2 ++ b).length ((frameLoop f a).2 ++ b)).1,
        (frameLoop ((frameLoop f a).2 ++ b).length ((frameLoop f a).2 ++ b)).2) := by
  induction f generalizing a with
  | zero =>
    have h0 : a = [] := List.length_eq_zero.1 (by omega)
    subst h0
    simp [frameLoop]
  | succ n ih =>
    cases hfind : findChar a NL with
    | none => simp [frameLoop_none _ _ hfind]
    | some pos =>
      have hlt := findChar_lt_length a NL pos hfind
      have hab := findChar_append_some a b NL pos hfind
      rw [frameLoop_some _ _ pos hf hfind, frameLoop_some _ _ pos (le_refl _) hab]
      have h1 : (a.drop (pos + 1)).length ≤ n := by
        simp only [List.length_drop]; omega
      have ht : (a ++ b).take pos = a.take pos := by
        rw [List.take_append_of_le_length (by omega)]
      have hd : (a ++ b).drop (pos + 1) = a.drop (pos + 1) ++ b := by
        rw [List.drop_append_of_le_length (by omega)]
      have hfu : frameLoop ((a ++ b).length - 1) (a.drop (pos + 1) ++ b)
          = frameLoop (a.drop (pos + 1) ++ b).length (a.drop (pos + 1) ++ b) := by
        apply frameLoop_fuel
        · simp only [List.length_append, List.length_drop]; omega
        · exact le_refl _
      simp only [Nat.add_sub_cancel, ht, hd, hfu]
      rw [ih _ h1]
      simp

theorem feed_leftover_no_NL (f : Nat) (s : Str) (hf : s.length ≤ f) :
    NL ∉ (frameLoop f s).2 := by
  induction f generalizing s with
  | zero =>
    have h0 : s = [] := List.length_eq_zero.1 (by omega)
    subst h0
    simp [frameLoop]
  | succ n ih =>
    cases hfind : findChar s NL with
    | none =>
      rw [frameLoop_none _ _ hfind]
      exact (findChar_eq_none_iff _ _).1 hfind
    | some pos =>
      have hlt := findChar_lt_length s NL pos hfind
      rw [frameLoop_some _ _ pos hf hfind]
      apply ih
      simp only [List.length_drop]; omega

/-- With a leftover free of `'\n'`, feeding chunk after chunk gives what feeding
their concatenation gives. -/
theorem feedChunks_eq_feed (chunks : List Str) (lines : List Str) (leftover : Str)
    (h : NL ∉ leftover) :
    feedChunks (lines, leftover) chunks =
      (lines ++ (feed leftover chunks.flatten).1, (feed leftover chunks.flatten).2) := by
  induction chunks generalizing lines leftover with
  | nil =>
    have hn := (findChar_eq_none_iff leftover NL).2 h
    simp [feedChunks, feed, frameLoop_none _ _ hn]
  | cons c cs ih =>
    have hno : NL ∉ (feed leftover c).2 := feed_leftover_no_NL _ _ (le_refl _)
    simp only [feedChunks, List.flatten_cons]
    rw [ih _ _ hno]
    have key := frameLoop_append (leftover ++ c).length (leftover ++ c) cs.flatten (le_refl _)
    simp only [feed]
    rw [← List.append_assoc leftover c cs.flatten, key]
    simp

/-- C3: framing does not depend on how the byte stream is cut into chunks.
Starting from an empty leftover, running the append-then-extract pass on the
chunks one after another produces the same lines, in the same order, and the
same final leftover as one pass over their concatenation (the unsplit text).
The statement holds for every list of chunks, non-empty ones in particular. -/
theorem framing_chunk_independent (chunks : List Str) :
    feedChunks ([], []) chunks = feed [] chunks.flatten := by
  rw [feedChunks_eq_feed chunks [] [] (by simp)]
  simp

theorem stripCR_append_CR (g : Str) : stripCR (g ++ [CR]) = g := by
  simp [stripCR]

theorem stripCR_of_last_ne (g : Str) (h : g.getLast? ≠ some CR) : stripCR g = g := by
  unfold stripCR
  rw [if_neg]
  simp only [Bool.and_eq_true, beq_iff_eq, not_and]
  intro _ hc
  exact h hc

/-- The extraction loop cuts the buffer at every `'\n'`. -/
theorem frameLoop_segments (f : Nat) (s : Str) (hf : s.length ≤ f) :
    ∃ segs : List Str,
      (∀ g ∈ segs, NL ∉ g) ∧
      s = (segs.map (fun g => g ++ [NL])).flatten ++ (frameLoop f s).2 ∧
      (frameLoop f s).1 = segs.map stripCR := by
  induction f generalizing s with
  | zero =>
    have h0 : s = [] := List.length_eq_zero.1 (by omega)
    subst h0
    exact ⟨[], by simp, by simp [frameLoop], by simp [frameLoop]⟩
  | succ n ih =>
    cases hfind : findChar s NL with
    | none =>
      rw [frameLoop_none _ _ hfind]
      exact ⟨[], by simp, by simp, by simp⟩
    | some pos =>
      have hlt := findChar_lt_length s NL pos hfind
      obtain ⟨hs, hno⟩ := findChar_some s NL pos hfind
      rw [frameLoop_some _ _ pos hf hfind]
      have h1 : (s.drop (pos + 1)).length ≤ n := by
        simp only [List.length_drop]; omega
      obtain ⟨segs, hsegs, hrest, hlines⟩ := ih _ h1
      refine ⟨s.take pos :: segs, ?_, ?_, ?_⟩
      · intro g hg
        rcases List.mem_cons.1 hg with rfl | hg
        · exact hno
        · exact hsegs g hg
      · simp only [Nat.add_sub_cancel, List.map_cons, List.flatten_cons, List.append_assoc,
          List.singleton_append]
        rw [List.cons_append, ← hrest]
        exact hs
      · simp only [Nat.add_sub_cancel, List.map_cons, hlines]

/-- C4: from an empty leftover, the text is the concatenation of segments
free of `'\n'`, each followed by one `'\n'`, and of the final leftover; the
lines produced are these segments in order, each passed through `stripCR`;
the leftover holds no `'\n'`; a text without `'\n'` produces no line and is
the leftover; `stripCR` removes exactly one trailing `'\r'` when there is one
and changes nothing otherwise. -/
theorem framing_lines (text : Str) :
    (∃ segs : List Str,
      (∀ g ∈ segs, NL ∉ g) ∧
      text = (segs.map (fun g => g ++ [NL])).flatten ++ (feed [] text).2 ∧
      (feed [] text).1 = segs.map stripCR) ∧
    NL ∉ (feed [] text).2 ∧
    (NL ∉ text → feed [] text = ([], text)) ∧
    (∀ g : Str, stripCR (g ++ [CR]) = g) ∧
    (∀ g : Str, g.getLast? ≠ some CR → stripCR g = g) := by
  refine ⟨?_, ?_, ?_, stripCR_append_CR, stripCR_of_last_ne⟩
  · simpa [feed] using frameLoop_segments text.length text (le_refl _)
  · simpa [feed] using feed_leftover_no_NL text.length text (le_refl _)
  · intro h
    simp [feed, frameLoop_none _ _ ((findChar_eq_none_iff text NL).2 h)]

/-! ## The per-level map -/

theorem LevelMap.lookup_increment (m : LevelMap) (k l : Str) :
    (LevelMap.increment m k).lookup l =
      if k = l then some ((m.lookup l).getD 0 + 1) else m.lookup l := by
  induction m with
  | nil =>
    by_cases h : k = l <;> simp [LevelMap.increment, LevelMap.lookup, h]
  | cons p m ih =>
    obtain ⟨k', v⟩ := p
    unfold LevelMap.increment
    by_cases h1 : k' = k
    · subst h1
      by_cases h2 : k' = l <;> simp [LevelMap.lookup, h2]
    · by_cases h2 : k' = l
      · subst h2
        have h3 : ¬ k = k' := fun h => h1 h.symm
        simp [LevelMap.lookup, h1, h3]
      · simp only [h1, if_false, LevelMap.lookup, h2, ih]

theorem LevelMap.sum_increment (m : LevelMap) (k : Str) :
    ((LevelMap.increment m k).map Prod.snd).sum = (m.map Prod.snd).sum + 1 := by
  induction m with
  | nil => simp [LevelMap.increment]
  | cons p m ih =>
    obtain ⟨k', v⟩ := p
    unfold LevelMap.increment
    by_cases h1 : k' = k
    · simp only [h1, if_true, List.map_cons, List.sum_cons]; ring
    · simp only [h1, if_false, List.map_cons, List.sum_cons, ih]; ring

/-! ## The `Stats` class -/

theorem Stats.foldl_snoc (es : List LogEntry) (e : LogEntry) (s : Stats) :
    (es ++ [e]).foldl Stats.addEntry s = Stats.addEntry (es.foldl Stats.addEntry s) e := by
  simp [List.foldl_append]

/-- The data members of a `Stats` after the entries `es` were added. -/
theorem Stats.fields_after (es : List LogEntry) :
    (es.foldl Stats.addEntry Stats.init).entries_ = es ∧
    (es.foldl Stats.addEntry Stats.init).totalMessages_ = es.length ∧
    (∀ l : Str, ((es.foldl Stats.addEntry Stats.init).levelCount_.lookup l).getD 0
        = es.countP (fun e => decide (e.level = l))) ∧
    (es.foldl Stats.addEntry Stats.init).totalLen_
        = (es.map (fun e => e.message.length)).sum ∧
    (∀ e ∈ es, (es.foldl Stats.addEntry Stats.init).minLen_ ≤ e.message.length) ∧
    (∀ e ∈ es, e.message.length ≤ (es.foldl Stats.addEntry Stats.init).maxLen_) ∧
    (es = [] → (es.foldl Stats.addEntry Stats.init).maxLen_ = 0) ∧
    (es ≠ [] → ∃ e ∈ es, e.message.length = (es.foldl Stats.addEntry Stats.init).maxLen_) ∧
    ((∀ e ∈ es, e.message.length ≤ SIZE_MAX) → es ≠ [] →
      ∃ e ∈ es, e.message.length = (es.foldl Stats.addEntry Stats.init).minLen_) := by
  induction es using List.reverseRecOn with
  | nil =>
    simp [Stats.init, LevelMap.lookup]
  | append_singleton es e ih =>
    obtain ⟨h1, h2, h3, h4, h5, h6, h7, h8, h9⟩ := ih
    rw [Stats.foldl_snoc]
    refine ⟨?_, ?_, ?_, ?_, ?_, ?_, ?_, ?_, ?_⟩
    · simp [Stats.addEntry, h1]
    · simp [Stats.addEntry, h2]
    · intro l
      simp only [Stats.addEntry, LevelMap.lookup_increment, List.countP_append,
        List.countP_cons, List.countP_nil]
      by_cases h : e.level = l
      · simp [h, h3]
      · simp [h, h3]
    · simp [Stats.addEntry, h4]
    · intro x hx
      simp only [Stats.addEntry]
      rcases List.mem_append.1 hx with hx | hx
      · exact le_trans (min_le_left _ _) (h5 x hx)
      · simp only [List.mem_singleton] at hx
        subst hx
        exact min_le_right _ _
    · intro x hx
      simp only [Stats.addEntry]
      rcases List.mem_append.1 hx with hx | hx
      · exact le_trans (h6 x hx) (le_max_left _ _)
      · simp only [List.mem_singleton] at hx
        subst hx
        exact le_max_right _ _
    · simp
    · intro _
      simp only [Stats.addEntry]
      by_cases hes : es = []
      · subst hes
        refine ⟨e, by simp, ?_⟩
        simp [Stats.init]
      · obtain ⟨x, hx, hxe⟩ := h8 hes
        rcases le_total ((es.foldl Stats.addEntry Stats.init).maxLen_) e.message.length with h | h
        · exact ⟨e, by simp, by rw [max_eq_right h]⟩
        · exact ⟨x, by simp [hx], by rw [max_eq_left h, hxe]⟩
    · intro hb _
      simp only [Stats.addEntry]
      by_cases hes : es = []
      · subst hes
        refine ⟨e, by simp, ?_⟩
        have : e.message.length ≤ SIZE_MAX := hb e (by simp)
        simp [Stats.init, this]
      · obtain ⟨x, hx, hxe⟩ := h9 (fun y hy => hb y (by simp [hy])) hes
        rcases le_total ((es.foldl Stats.addEntry Stats.init).minLen_) e.message.length with h | h
        · exact ⟨x, by simp [hx], by rw [min_eq_left h, hxe]⟩
        · exact ⟨e, by simp, by rw [min_eq_right h]⟩

/-! ## The aggregator of the server -/

theorem processLogLine_nil (clk : Nat → Int) (l : Str) (st : ServerState) (h : l = []) :
    processLogLine clk l st = st := by
  subst h
  rfl

theorem processLogLine_cons (clk : Nat → Int) (l : Str) (st : ServerState) (h : l ≠ []) :
    processLogLine clk l st =
      { entries := st.entries ++
          [{ message := l, timestamp := clk st.clockReads, level := determineLevel l }],
        totalMessages := st.totalMessages + 1,
        levelCount := st.levelCount.increment (determineLevel l),
        minLen := min st.minLen l.length,
        maxLen := max st.maxLen l.length,
        totalLen := st.totalLen + l.length,
        updated := true,
        reports := st.reports,
        clockReads := st.clockReads + 1 } := by
  cases l with
  | nil => exact absurd rfl h
  | cons c cs => rfl

theorem sum_bounds (l : List Nat) (mn mx : Nat) (h : ∀ x ∈ l, mn ≤ x ∧ x ≤ mx) :
    l.length * mn ≤ l.sum ∧ l.sum ≤ l.length * mx := by
  constructor
  · have := List.card_nsmul_le_sum l mn (fun x hx => (h x hx).1)
    simpa using this
  · have := List.sum_le_card_nsmul l mx (fun x hx => (h x hx).2)
    simpa using this

/-- The counters of every reachable state agree with the stored entries. -/
theorem reachable_invariant (clk : Nat → Int) (st : ServerState) (h : Reachable clk st) :
    st.totalMessages = st.entries.length ∧
    st.totalLen = (st.entries.map (fun e => e.message.length)).sum ∧
    (∀ e ∈ st.entries, st.minLen ≤ e.message.length ∧ e.message.length ≤ st.maxLen) ∧
    (st.levelCount.map Prod.snd).sum = st.totalMessages := by
  induction h with
  | init => simp [ServerState.init]
  | line st l _ ih =>
    obtain ⟨h1, h2, h3, h4⟩ := ih
    by_cases hl : l = []
    · rw [processLogLine_nil clk l st hl]
      exact ⟨h1, h2, h3, h4⟩
    · rw [processLogLine_cons clk l st hl]
      refine ⟨?_, ?_, ?_, ?_⟩
      · simp [h1]
      · simp [h2]
      · intro e he
        simp only [List.mem_append, List.mem_singleton] at he
        rcases he with he | he
        · exact ⟨le_trans (min_le_left _ _) (h3 e he).1,
            le_trans (h3 e he).2 (le_max_left _ _)⟩
        · subst he
          exact ⟨min_le_right _ _, le_max_right _ _⟩
      · simp [LevelMap.sum_increment, h4]
  | stats st _ ih => exact ih

/-- In a reachable state with messages, the truncated average lies between the
extrema. -/
theorem reachable_avg (clk : Nat → Int) (st : ServerState) (h : Reachable clk st)
    (hpos : 0 < st.totalMessages) :
    st.minLen ≤ st.totalLen / st.totalMessages.toNat ∧
    st.totalLen / st.totalMessages.toNat ≤ st.maxLen := by
  obtain ⟨h1, h2, h3, _⟩ := reachable_invariant clk st h
  have hn : 0 < st.totalMessages.toNat := by omega
  have hlen : st.entries.length = st.totalMessages.toNat := by omega
  obtain ⟨hlo, hhi⟩ := sum_bounds (st.entries.map (fun e => e.message.length)) st.minLen
    st.maxLen (by
      intro x hx
      obtain ⟨e, he, rfl⟩ := List.mem_map.1 hx
      exact h3 e he)
  rw [List.length_map, ← h2, hlen] at hlo hhi
  constructor
  · rw [Nat.le_div_iff_mul_le hn, Nat.mul_comm]
    exact hlo
  · exact Nat.div_le_of_le_mul hhi

/-- Every statistics block printed so far shows an average between its extrema. -/
theorem reachable_reports (clk : Nat → Int) (st : ServerState) (h : Reachable clk st) :
    ∀ r ∈ st.reports, ∀ mn mx avg : Nat, r.lengths = some (mn, mx, avg) →
      mn ≤ avg ∧ avg ≤ mx := by
  induction h with
  | init => simp [ServerState.init]
  | line st l _ ih =>
    by_cases hl : l = []
    · rw [processLogLine_nil clk l st hl]
      exact ih
    · rw [processLogLine_cons clk l st hl]
      exact ih
  | stats st hst ih =>
    unfold printStats
    intro r hr mn mx avg hlen
    simp only [List.mem_append, List.mem_singleton] at hr
    rcases hr with hr | hr
    · exact ih r hr mn mx avg hlen
    · subst hr
      by_cases hpos : st.totalMessages > 0
      · simp only [hpos, if_true, Option.some.injEq, Prod.mk.injEq] at hlen
        obtain ⟨rfl, rfl, rfl⟩ := hlen
        exact reachable_avg clk st hst hpos
      · simp [hpos] at hlen

theorem rat_avg_bounds (l : List Nat) (mn mx : Nat) (hl : l ≠ [])
    (h : ∀ x ∈ l, mn ≤ x ∧ x ≤ mx) :
    (mn : ℚ) ≤ (l.sum : ℚ) / (l.length : ℚ) ∧ (l.sum : ℚ) / (l.length : ℚ) ≤ (mx : ℚ) := by
  obtain ⟨hlo, hhi⟩ := sum_bounds l mn mx h
  have hn : (0 : ℚ) < (l.length : ℚ) := by
    have := List.length_pos.2 hl
    exact_mod_cast this
  constructor
  · rw [le_div_iff₀ hn]
    have : (l.length : ℚ) * (mn : ℚ) ≤ ((l.sum : Nat) : ℚ) := by
      rw [← Nat.cast_mul]
      exact Nat.cast_le.2 hlo
    linarith
  · rw [div_le_iff₀ hn]
    have : ((l.sum : Nat) : ℚ) ≤ (l.length : ℚ) * (mx : ℚ) := by
      rw [← Nat.cast_mul]
      exact Nat.cast_le.2 hhi
    linarith

theorem recordAll_fields (es : List LogEntry) :
    (recordAll es).entries = (Stats.addAll es).entries_ ∧
    (recordAll es).totalMessages = (Stats.addAll es).totalMessages_ ∧
    (recordAll es).levelCount = (Stats.addAll es).levelCount_ ∧
    (recordAll es).minLen = (Stats.addAll es).minLen_ ∧
    (recordAll es).maxLen = (Stats.addAll es).maxLen_ ∧
    (recordAll es).totalLen = (Stats.addAll es).totalLen_ := by
  unfold recordAll Stats.addAll
  induction es using List.reverseRecOn with
  | nil => simp [ServerState.init, Stats.init]
  | append_singleton es e ih =>
    obtain ⟨h1, h2, h3, h4, h5, h6⟩ := ih
    simp only [List.foldl_append, List.foldl_cons, List.foldl_nil]
    generalize List.foldl (fun st e => recordEntry e st) ServerState.init es = a at *
    generalize List.foldl Stats.addEntry Stats.init es = b at *
    simp only [recordEntry, Stats.addEntry, h1, h2, h3, h4, h5, h6, and_self]

/-- C5: after the entries `es` were added to an empty aggregator,
`totalMessages` is the number of entries, `countByLevel l` the number of
entries of level `l` (0 for a level that never occurred), `maxLength` and
`minLength` the largest and the smallest message length, `avgLength` the sum
of the lengths divided by the number of entries; with no entry all five are 0;
and the globals of the server after the same entries went through the critical
section of `processLogLine` hold the same values as the members of `Stats`.
Message lengths are `size_t` values. -/
theorem Stats.addAll_counts (es : List LogEntry)
    (hsz : ∀ e ∈ es, e.message.length ≤ SIZE_MAX) :
    (Stats.addAll es).totalMessages = es.length ∧
    (∀ l : Str, (Stats.addAll es).countByLevel l
        = es.countP (fun e => decide (e.level = l))) ∧
    (∀ l : Str, (∀ e ∈ es, e.level ≠ l) → (Stats.addAll es).countByLevel l = 0) ∧
    (∀ e ∈ es, e.message.length ≤ (Stats.addAll es).maxLength) ∧
    (es ≠ [] → ∃ e ∈ es, e.message.length = (Stats.addAll es).maxLength) ∧
    (∀ e ∈ es, (Stats.addAll es).minLength ≤ e.message.length) ∧
    (es ≠ [] → ∃ e ∈ es, e.message.length = (Stats.addAll es).minLength) ∧
    (es ≠ [] → (Stats.addAll es).avgLength
        = (((es.map (fun e => e.message.length)).sum : Nat) : ℚ) / (es.length : ℚ)) ∧
    (es = [] → (Stats.addAll es).totalMessages = 0 ∧
        (∀ l : Str, (Stats.addAll es).countByLevel l = 0) ∧
        (Stats.addAll es).minLength = 0 ∧ (Stats.addAll es).maxLength = 0 ∧
        (Stats.addAll es).avgLength = 0) ∧
    ((recordAll es).entries = es ∧
      (recordAll es).totalMessages = (Stats.addAll es).totalMessages ∧
      (recordAll es).levelCount = (Stats.addAll es).levelCount_ ∧
      (recordAll es).minLen = (Stats.addAll es).minLen_ ∧
      (recordAll es).maxLen = (Stats.addAll es).maxLength ∧
      (recordAll es).totalLen = (es.map (fun e => e.message.length)).sum) := by
  obtain ⟨g1, g2, g3, g4, g5, g6⟩ := recordAll_fields es
  obtain ⟨h1, h2, h3, h4, h5, h6, h7, h8, h9⟩ := Stats.fields_after es
  have hcount : ∀ l : Str, (Stats.addAll es).countByLevel l
      = es.countP (fun e => decide (e.level = l)) := by
    intro l
    have := h3 l
    unfold Stats.countByLevel Stats.addAll
    cases hlk : (List.foldl Stats.addEntry Stats.init es).levelCount_.lookup l with
    | none => simpa [hlk] using this
    | some c => simpa [hlk] using this
  have htot : (Stats.addAll es).totalMessages_ = es.length := h2
  refine ⟨h2, hcount, ?_, h6, h8, ?_, ?_, ?_, ?_, ?_⟩
  · intro l hl
    rw [hcount l]
    have : es.countP (fun e => decide (e.level = l)) = 0 := by
      rw [List.countP_eq_zero]
      intro e he
      simpa using hl e he
    simp [this]
  · intro e he
    unfold Stats.minLength
    split
    · exact Nat.zero_le _
    · exact h5 e he
  · intro hne
    obtain ⟨e, he, hee⟩ := h9 hsz hne
    refine ⟨e, he, ?_⟩
    unfold Stats.minLength
    have hlen : (es.length : Int) ≠ 0 := by
      have := List.length_pos.2 hne
      omega
    rw [if_neg (by rw [htot]; exact hlen)]
    exact hee
  · intro hne
    unfold Stats.avgLength
    have hlen : (es.length : Int) ≠ 0 := by
      have := List.length_pos.2 hne
      omega
    rw [if_neg (by rw [htot]; exact hlen), htot]
    have h4' : (Stats.addAll es).totalLen_ = (es.map (fun e => e.message.length)).sum := h4
    rw [h4']
    simp only [Int.cast_natCast]
  · intro hnil
    subst hnil
    refine ⟨rfl, fun l => rfl, rfl, rfl, rfl⟩
  · refine ⟨?_, g2, g3, g4, g5, ?_⟩
    · rw [g1]; exact h1
    · rw [g6]; exact h4

/-- The entries of the test `StatsTest.AddAndCount`. -/
theorem Stats.addAll_counts_witness :
    (∀ e ∈ [({ message := lit "Test error message", timestamp := 0, level := lit "ERROR" } : LogEntry),
            { message := lit "Warning here", timestamp := 0, level := lit "WARNING" },
            { message := lit "Info msg", timestamp := 0, level := lit "INFO" },
            { message := lit "Another info", timestamp := 0, level := lit "INFO" }],
        e.message.length ≤ SIZE_MAX) ∧
    (Stats.addAll [({ message := lit "Test error message", timestamp := 0, level := lit "ERROR" } : LogEntry),
            { message := lit "Warning here", timestamp := 0, level := lit "WARNING" },
            { message := lit "Info msg", timestamp := 0, level := lit "INFO" },
            { message := lit "Another info", timestamp := 0, level := lit "INFO" }]).totalMessages
      = 4 :=
  ⟨by decide,
   (Stats.addAll_counts _ (by decide)).1⟩

/-- C6: after every `addEntry` the exact average of `Stats` lies between
`minLength` and `maxLength` (the count is then positive); in every reachable
state of the server with `totalMessages > 0` the truncated average
`totalLen / totalMessages` lies between `minLen` and `maxLen`, and so does the
average in every statistics block that was printed. -/
theorem avg_between_extrema (clk : Nat → Int) (st : ServerState) (h : Reachable clk st)
    (hpos : 0 < st.totalMessages) (es : List LogEntry) (e : LogEntry) :
    (0 < (Stats.addEntry (Stats.addAll es) e).totalMessages ∧
      (((Stats.addEntry (Stats.addAll es) e).minLength : Nat) : ℚ)
        ≤ (Stats.addEntry (Stats.addAll es) e).avgLength ∧
      (Stats.addEntry (Stats.addAll es) e).avgLength
        ≤ (((Stats.addEntry (Stats.addAll es) e).maxLength : Nat) : ℚ)) ∧
    (st.minLen ≤ st.totalLen / st.totalMessages.toNat ∧
      st.totalLen / st.totalMessages.toNat ≤ st.maxLen) ∧
    (∀ r ∈ st.reports, ∀ mn mx avg : Nat, r.lengths = some (mn, mx, avg) →
      mn ≤ avg ∧ avg ≤ mx) := by
  refine ⟨?_, reachable_avg clk st h hpos, reachable_reports clk st h⟩
  have hs : Stats.addEntry (Stats.addAll es) e = (es ++ [e]).foldl Stats.addEntry Stats.init := by
    rw [Stats.foldl_snoc]; rfl
  obtain ⟨_, h2, _, h4, h5, h6, _, _, _⟩ := Stats.fields_after (es ++ [e])
  rw [← hs] at h2 h4 h5 h6
  have hne : es ++ [e] ≠ [] := by simp
  have htot : (Stats.addEntry (Stats.addAll es) e).totalMessages_ ≠ 0 := by
    rw [h2]
    have := List.length_pos.2 hne
    omega
  obtain ⟨hlo, hhi⟩ := rat_avg_bounds ((es ++ [e]).map (fun x => x.message.length))
    (Stats.addEntry (Stats.addAll es) e).minLen_ (Stats.addEntry (Stats.addAll es) e).maxLen_
    (by simp)
    (by
      intro x hx
      obtain ⟨y, hy, rfl⟩ := List.mem_map.1 hx
      exact ⟨h5 y hy, h6 y hy⟩)
  rw [List.length_map, ← h4] at hlo hhi
  refine ⟨?_, ?_, ?_⟩
  · unfold Stats.totalMessages
    rw [h2]
    have := List.length_pos.2 hne
    omega
  · unfold Stats.minLength Stats.avgLength
    rw [if_neg htot, if_neg htot, h2]
    simpa using hlo
  · unfold Stats.maxLength Stats.avgLength
    rw [if_neg htot, h2]
    simpa using hhi

/-- One message "a" received by the server, one entry added to `Stats`. -/
theorem avg_between_extrema_witness :
    Reachable (fun _ => 0) (processLogLine (fun _ => 0) (lit "a") ServerState.init) ∧
    0 < (processLogLine (fun _ => 0) (lit "a") ServerState.init).totalMessages ∧
    (Stats.addEntry (Stats.addAll [])
        { message := lit "a", timestamp := 0, level := lit "INFO" }).avgLength
      ≤ (((Stats.addEntry (Stats.addAll [])
        { message := lit "a", timestamp := 0, level := lit "INFO" }).maxLength : Nat) : ℚ) :=
  ⟨Reachable.line _ _ Reachable.init, by decide,
   (avg_between_extrema (fun _ => 0) (processLogLine (fun _ => 0) (lit "a") ServerState.init)
      (Reachable.line _ _ Reachable.init) (by decide)
      [] { message := lit "a", timestamp := 0, level := lit "INFO" }).1.2.2⟩

/-- C7: in every state reachable by `processLogLine` and `printStats` steps,
`totalMessages` is the number of stored entries, the per-level counts add up
to `totalMessages`, and `totalLen` is the sum of the stored message lengths.
A `processLogLine` step either leaves the entries and every counter alone, or
appends one entry and updates every counter for it; a `printStats` step leaves
the entries and every counter alone. -/
theorem counters_consistent (clk : Nat → Int) (st : ServerState) (h : Reachable clk st) :
    (st.totalMessages = st.entries.length ∧
      (st.levelCount.map Prod.snd).sum = st.totalMessages ∧
      st.totalLen = (st.entries.map (fun e => e.message.length)).sum) ∧
    (∀ l : Str,
      ((processLogLine clk l st).entries = st.entries ∧
        (processLogLine clk l st).totalMessages = st.totalMessages ∧
        (processLogLine clk l st).levelCount = st.levelCount ∧
        (processLogLine clk l st).totalLen = st.totalLen ∧
        (processLogLine clk l st).minLen = st.minLen ∧
        (processLogLine clk l st).maxLen = st.maxLen) ∨
      (∃ e : LogEntry,
        (processLogLine clk l st).entries = st.entries ++ [e] ∧
        (processLogLine clk l st).totalMessages = st.totalMessages + 1 ∧
        (processLogLine clk l st).levelCount = st.levelCount.increment e.level ∧
        (processLogLine clk l st).totalLen = st.totalLen + e.message.length ∧
        (processLogLine clk l st).minLen = min st.minLen e.message.length ∧
        (processLogLine clk l st).maxLen = max st.maxLen e.message.length)) ∧
    ((printStats clk st).entries = st.entries ∧
      (printStats clk st).totalMessages = st.totalMessages ∧
      (printStats clk st).levelCount = st.levelCount ∧
      (printStats clk st).totalLen = st.totalLen ∧
      (printStats clk st).minLen = st.minLen ∧
      (printStats clk st).maxLen = st.maxLen) := by
  obtain ⟨h1, h2, _, h4⟩ := reachable_invariant clk st h
  refine ⟨⟨h1, h4, h2⟩, ?_, ⟨rfl, rfl, rfl, rfl, rfl, rfl⟩⟩
  intro l
  by_cases hl : l = []
  · left
    rw [processLogLine_nil clk l st hl]
    exact ⟨rfl, rfl, rfl, rfl, rfl, rfl⟩
  · right
    rw [processLogLine_cons clk l st hl]
    exact ⟨{ message := l, timestamp := clk st.clockReads, level := determineLevel l },
      rfl, rfl, rfl, rfl, rfl, rfl⟩

/-- Two lines and a report in between. -/
theorem counters_consistent_witness :
    Reachable (fun _ => 0)
      (processLogLine (fun _ => 0) (lit "WARN b")
        (printStats (fun _ => 0)
          (processLogLine (fun _ => 0) (lit "a") ServerState.init))) ∧
    (processLogLine (fun _ => 0) (lit "WARN b")
        (printStats (fun _ => 0)
          (processLogLine (fun _ => 0) (lit "a") ServerState.init))).totalMessages
      = ((processLogLine (fun _ => 0) (lit "WARN b")
        (printStats (fun _ => 0)
          (processLogLine (fun _ => 0) (lit "a") ServerState.init))).entries.length : Int) :=
  ⟨Reachable.line _ _ (Reachable.stats _ (Reachable.line _ _ Reachable.init)),
   (counters_consistent (fun _ => 0) _
      (Reachable.line _ _ (Reachable.stats _ (Reachable.line _ _ Reachable.init)))).1.1⟩

/-- C8 as amended: the three lines give one ERROR entry, one WARNING entry, no
INFO entry and one entry under the tag that `determineLevel` returns for a
line without keyword; the total is 3, the shortest message has 15 bytes
("WARN low memory") and the longest 22 ("System ERROR disk full"). -/
theorem scenario_three_lines (clk : Nat → Int) :
    (processLogLine clk (lit "WARN low memory")
      (processLogLine clk (lit "normal operation")
        (processLogLine clk (lit "System ERROR disk full") ServerState.init))).levelCount.lookup
        (lit "ERROR") = some 1 ∧
    (processLogLine clk (lit "WARN low memory")
      (processLogLine clk (lit "normal operation")
        (processLogLine clk (lit "System ERROR disk full") ServerState.init))).levelCount.lookup
        (lit "INFO") = none ∧
    (processLogLine clk (lit "WARN low memory")
      (processLogLine clk (lit "normal operation")
        (processLogLine clk (lit "System ERROR disk full") ServerState.init))).levelCount.lookup
        (lit "WARNING") = some 1 ∧
    (processLogLine clk (lit "WARN low memory")
      (processLogLine clk (lit "normal operation")
        (processLogLine clk (lit "System ERROR disk full") ServerState.init))).levelCount.lookup
        (determineLevel (lit "normal operation")) = some 1 ∧
    (processLogLine clk (lit "WARN low memory")
      (processLogLine clk (lit "normal operation")
        (processLogLine clk (lit "System ERROR disk full") ServerState.init))).totalMessages = 3 ∧
    (processLogLine clk (lit "WARN low memory")
      (processLogLine clk (lit "normal operation")
        (processLogLine clk (lit "System ERROR disk full") ServerState.init))).minLen = 15 ∧
    (processLogLine clk (lit "WARN low memory")
      (processLogLine clk (lit "normal operation")
        (processLogLine clk (lit "System ERROR disk full") ServerState.init))).maxLen = 22 ∧
    (lit "WARN low memory").length = 15 ∧ (lit "normal operation").length = 16 ∧
    (lit "System ERROR disk full").length = 22 :=
  ⟨rfl, rfl, rfl, rfl, rfl, rfl, rfl, rfl, rfl, rfl⟩

/-- C8, as stated, fails: the shortest of the three messages has 15 bytes, not
16, and the longest 22, not 24. -/
theorem scenario_three_lines_counterexample :
    (processLogLine (fun _ => 0) (lit "WARN low memory")
      (processLogLine (fun _ => 0) (lit "normal operation")
        (processLogLine (fun _ => 0) (lit "System ERROR disk full")
          ServerState.init))).minLen ≠ 16 ∧
    (processLogLine (fun _ => 0) (lit "WARN low memory")
      (processLogLine (fun _ => 0) (lit "normal operation")
        (processLogLine (fun _ => 0) (lit "System ERROR disk full")
          ServerState.init))).maxLen ≠ 24 ∧
    ¬ ((Stats.addAll
          [{ message := lit "System ERROR disk full", timestamp := 0,
             level := determineLevel (lit "System ERROR disk full") },
           { message := lit "normal operation", timestamp := 0,
             level := determineLevel (lit "normal operation") },
           { message := lit "WARN low memory", timestamp := 0,
             level := determineLevel (lit "WARN low memory") }]).minLength = 16 ∧
        (Stats.addAll
          [{ message := lit "System ERROR disk full", timestamp := 0,
             level := determineLevel (lit "System ERROR disk full") },
           { message := lit "normal operation", timestamp := 0,
             level := determineLevel (lit "normal operation") },
           { message := lit "WARN low memory", timestamp := 0,
             level := determineLevel (lit "WARN low memory") }]).maxLength = 24) := by
  decide

/-! ## The connection handler -/

theorem drainLines_none (clk : Nat → Int) (N : Int) (fuel : Nat) (s : Str) (st : ServerState)
    (h : findChar s NL = none) : drainLines clk N fuel s st = some (s, st) := by
  cases fuel with
  | zero => rfl
  | succ n => simp [drainLines, h]

theorem drainLines_some (clk : Nat → Int) (N : Int) (fuel : Nat) (s : Str) (st : ServerState)
    (pos : Nat) (hf : s.length ≤ fuel) (h : findChar s NL = some pos) :
    drainLines clk N fuel s st =
      (reportEveryN clk N (processLogLine clk (stripCR (s.take pos)) st)).bind
        (fun st1 => drainLines clk N (fuel - 1) (s.drop (pos + 1)) st1) := by
  have hlt := findChar_lt_length s NL pos h
  cases fuel with
  | zero => omega
  | succ n =>
    simp only [drainLines, h, Nat.add_sub_cancel]
    cases reportEveryN clk N (processLogLine clk (stripCR (s.take pos)) st) <;> rfl

/-- The inner loop of the handler passes exactly the framed lines, in order, to
`processLogLine` and the every-N check, and keeps the framed leftover. -/
theorem drainLines_eq_foldlM (clk : Nat → Int) (N : Int) (fuel : Nat) (s : Str)
    (st : ServerState) (hf : s.length ≤ fuel) :
    drainLines clk N fuel s st =
      ((frameLoop fuel s).1.foldlM
          (fun st1 l => reportEveryN clk N (processLogLine clk l st1)) st).map
        (fun st1 => ((frameLoop fuel s).2, st1)) := by
  induction fuel generalizing s st with
  | zero =>
    have h0 : s = [] := List.length_eq_zero.1 (by omega)
    subst h0
    simp [drainLines, frameLoop]
  | succ n ih =>
    cases hfind : findChar s NL with
    | none =>
      rw [drainLines_none _ _ _ _ _ hfind, frameLoop_none _ _ hfind]
      simp
    | some pos =>
      have hlt := findChar_lt_length s NL pos hfind
      have h1 : (s.drop (pos + 1)).length ≤ n := by
        simp only [List.length_drop]; omega
      rw [drainLines_some _ _ _ _ _ pos hf hfind, frameLoop_some _ _ pos hf hfind]
      simp only [Nat.add_sub_cancel, List.foldlM_cons]
      cases hstep : reportEveryN clk N (processLogLine clk (stripCR (s.take pos)) st) with
      | none => simp
      | some st1 =>
        simp only [Option.some_bind, Option.bind_eq_bind]
        rw [ih _ _ h1]

/-- The handler run on data chunks only: the lines framed from the whole stream
go through `processLogLine` and the every-N check, one after another. -/
theorem handleClient_data (clk : Nat → Int) (N : Int) (chunks : List Str) (leftover : Str)
    (st : ServerState) (h : NL ∉ leftover) :
    handleClient clk N (chunks.map RecvResult.data) leftover st =
      ((feed leftover chunks.flatten).1.foldlM
          (fun st1 l => reportEveryN clk N (processLogLine clk l st1)) st).map
        (fun st1 => ({ leftover := (feed leftover chunks.flatten).2, finished := false }, st1)) := by
  induction chunks generalizing leftover st with
  | nil =>
    have hn := (findChar_eq_none_iff leftover NL).2 h
    simp [handleClient, feed, frameLoop_none _ _ hn]
  | cons c cs ih =>
    have hno : NL ∉ (feed leftover c).2 := feed_leftover_no_NL _ _ (le_refl _)
    have key := frameLoop_append (leftover ++ c).length (leftover ++ c) cs.flatten (le_refl _)
    simp only [List.map_cons, handleClient, List.flatten_cons]
    rw [drainLines_eq_foldlM _ _ _ _ _ (le_refl _)]
    simp only [feed] at hno ih ⊢
    rw [← List.append_assoc leftover c cs.flatten, key]
    simp only [List.foldlM_append]
    cases hfold : List.foldlM (fun st1 l => reportEveryN clk N (processLogLine clk l st1)) st
        (frameLoop (leftover ++ c).length (leftover ++ c)).1 with
    | none => simp
    | some st1 =>
      simp only [Option.map_some', Option.some_bind, Option.bind_eq_bind]
      rw [ih _ _ hno]

theorem reportEveryN_of_dvd (clk : Nat → Int) (m : Nat) (hm : 0 < m) (st : ServerState)
    (n : Nat) (htot : st.totalMessages = n) (hd : m ∣ n) :
    reportEveryN clk (m : Int) st = some (printStats clk st) := by
  unfold reportEveryN
  have h0 : ¬ (m : Int) = 0 := by omega
  have : Int.tmod st.totalMessages (m : Int) = 0 := by
    rw [htot]
    exact Int.dvd_iff_tmod_eq_zero.1 (Int.natCast_dvd_natCast.2 hd)
  rw [if_neg h0, if_pos this]

theorem reportEveryN_of_not_dvd (clk : Nat → Int) (m : Nat) (hm : 0 < m) (st : ServerState)
    (n : Nat) (htot : st.totalMessages = n) (hd : ¬ m ∣ n) :
    reportEveryN clk (m : Int) st = some st := by
  unfold reportEveryN
  have h0 : ¬ (m : Int) = 0 := by omega
  have : ¬ Int.tmod st.totalMessages (m : Int) = 0 := by
    rw [htot]
    intro h
    exact hd (Int.natCast_dvd_natCast.1 (Int.dvd_iff_tmod_eq_zero.2 h))
  rw [if_neg h0, if_neg this]

/-- Non-empty lines processed from the initial state with a positive interval:
every line becomes one entry, and a block is printed at each multiple. -/
theorem foldlM_lines (clk : Nat → Int) (m : Nat) (hm : 0 < m) (lines : List Str)
    (hne : ∀ l ∈ lines, l ≠ []) :
    ∃ st : ServerState,
      lines.foldlM (fun st1 l => reportEveryN clk (m : Int) (processLogLine clk l st1))
        ServerState.init = some st ∧
      st.entries.map (fun e => e.message) = lines ∧
      st.entries.map (fun e => e.level) = lines.map determineLevel ∧
      st.totalMessages = lines.length ∧
      st.reports.map (fun r => r.totalMessages)
        = (List.range (lines.length / m)).map (fun i => (((i + 1) * m : Nat) : Int)) ∧
      (st.updated = true ↔ ¬ m ∣ lines.length) := by
  induction lines using List.reverseRecOn with
  | nil =>
    exact ⟨ServerState.init, rfl, rfl, rfl, rfl, by simp [Nat.zero_div, ServerState.init],
      by simp [ServerState.init]⟩
  | append_singleton ls l ih =>
    obtain ⟨st, hrun, hmsg, hlev, htot, hrep, _⟩ := ih (fun x hx => hne x (by simp [hx]))
    have hl : l ≠ [] := hne l (by simp)
    have htot' : (processLogLine clk l st).totalMessages = ((ls.length + 1 : Nat) : Int) := by
      rw [processLogLine_cons clk l st hl]
      simp [htot]
    simp only [List.foldlM_append, hrun, List.foldlM_cons, List.foldlM_nil, Option.some_bind,
      Option.bind_eq_bind, List.length_append, List.length_singleton, bind_pure]
    by_cases hd : m ∣ ls.length + 1
    · rw [reportEveryN_of_dvd clk m hm _ _ htot' hd]
      refine ⟨_, rfl, ?_, ?_, ?_, ?_, ?_⟩
      · rw [processLogLine_cons clk l st hl]
        simp [printStats, hmsg]
      · rw [processLogLine_cons clk l st hl]
        simp [printStats, hlev]
      · rw [processLogLine_cons clk l st hl]
        simp [printStats, htot]
      · rw [processLogLine_cons clk l st hl]
        simp only [printStats, List.map_append, hrep, List.map_cons, List.map_nil]
        rw [Nat.succ_div, if_pos hd, List.range_succ, List.map_append]
        simp only [List.map_cons, List.map_nil]
        congr 2
        have := Nat.div_mul_cancel hd
        rw [Nat.succ_div, if_pos hd] at this
        rw [this, htot]
        push_cast
        ring
      · simp [printStats, hd]
    · rw [reportEveryN_of_not_dvd clk m hm _ _ htot' hd]
      refine ⟨_, rfl, ?_, ?_, ?_, ?_, ?_⟩
      · rw [processLogLine_cons clk l st hl]
        simp [hmsg]
      · rw [processLogLine_cons clk l st hl]
        simp [hlev]
      · rw [processLogLine_cons clk l st hl]
        simp [htot]
      · rw [processLogLine_cons clk l st hl]
        simp only [hrep]
        rw [Nat.succ_div, if_neg hd, Nat.add_zero]
      · rw [processLogLine_cons clk l st hl]
        simp [hd]

/-- C9 as amended: a line that is not empty is classified and added as exactly
one entry by `processLogLine`, an empty line adds nothing; and for a stream of
data chunks whose complete lines are all non-empty (after the `'\r'` strip),
handled from the initial state with an interval `N > 0`, every complete line
became one entry, in order and with the level `determineLevel` gives it, the
blocks printed are those at the totals `N, 2N, ...`, and their number is the
number of complete lines divided by `N`, rounded down. -/
theorem handleClient_lines_and_reports (clk : Nat → Int) (N : Int) (hN : 0 < N)
    (chunks : List Str) (hne : ∀ l ∈ (feed [] chunks.flatten).1, l ≠ []) :
    (∀ (l : Str) (st : ServerState), l ≠ [] →
      (processLogLine clk l st).entries = st.entries ++
        [{ message := l, timestamp := clk st.clockReads, level := determineLevel l }] ∧
      (processLogLine clk l st).totalMessages = st.totalMessages + 1) ∧
    (∀ st : ServerState, processLogLine clk [] st = st) ∧
    (∃ st : ServerState,
      handleClient clk N (chunks.map RecvResult.data) [] ServerState.init
        = some ({ leftover := (feed [] chunks.flatten).2, finished := false }, st) ∧
      st.entries.map (fun e => e.message) = (feed [] chunks.flatten).1 ∧
      st.entries.map (fun e => e.level) = (feed [] chunks.flatten).1.map determineLevel ∧
      st.totalMessages = (feed [] chunks.flatten).1.length ∧
      st.reports.map (fun r => r.totalMessages)
        = (List.range ((feed [] chunks.flatten).1.length / N.toNat)).map
            (fun i => ((i + 1 : Nat) : Int) * N) ∧
      st.reports.length = (feed [] chunks.flatten).1.length / N.toNat) := by
  refine ⟨?_, ?_, ?_⟩
  · intro l st hl
    rw [processLogLine_cons clk l st hl]
    exact ⟨rfl, rfl⟩
  · intro st
    rfl
  · obtain ⟨m, rfl⟩ := Int.eq_ofNat_of_zero_le (le_of_lt hN)
    have hm : 0 < m := by omega
    obtain ⟨st, hrun, hmsg, hlev, htot, hrep, _⟩ :=
      foldlM_lines clk m hm (feed [] chunks.flatten).1 hne
    refine ⟨st, ?_, hmsg, hlev, htot, ?_, ?_⟩
    · rw [handleClient_data clk (m : Int) chunks [] ServerState.init (by simp), hrun]
      rfl
    · rw [hrep, Int.toNat_ofNat]
      apply List.map_congr_left
      intro i _
      push_cast
      ring
    · have := congrArg List.length hrep
      simpa using this

/-- The stream "ab\r\n" "cd\n" "e" with `N = 2`. -/
theorem handleClient_lines_and_reports_witness :
    (0 : Int) < 2 ∧
    (∀ l ∈ (feed [] [lit "ab\r\n", lit "cd\n", lit "e"].flatten).1, l ≠ []) ∧
    ∃ st : ServerState,
      handleClient (fun _ => 0) 2
          ([lit "ab\r\n", lit "cd\n", lit "e"].map RecvResult.data) [] ServerState.init
        = some ({ leftover := (feed [] [lit "ab\r\n", lit "cd\n", lit "e"].flatten).2,
                  finished := false }, st) ∧
      st.reports.length = (feed [] [lit "ab\r\n", lit "cd\n", lit "e"].flatten).1.length
        / (2 : Int).toNat :=
  ⟨by decide, by decide,
   (handleClient_lines_and_reports (fun _ => 0) 2 (by decide)
      [lit "ab\r\n", lit "cd\n", lit "e"] (by decide)).2.2.imp
     (fun _ h => ⟨h.1, h.2.2.2.2.2⟩)⟩

/-- C9, as stated, fails on the stream that consists of one empty line, with
`N = 2`: one complete line is extracted, no entry is added, and one block is
printed, where the claim requires one entry and no block. -/
theorem handleClient_empty_line_counterexample :
    (feed [] [NL]).1 = [[]] ∧
    (handleClient (fun _ => 0) 2 [RecvResult.data [NL]] [] ServerState.init).map
        (fun r => (r.2.entries.length, r.2.reports.length)) = some (0, 1) ∧
    ¬ ((handleClient (fun _ => 0) 2 [RecvResult.data [NL]] [] ServerState.init).map
        (fun r => (r.2.entries.length, r.2.reports.length))
      = some ((feed [] [NL]).1.length, (feed [] [NL]).1.length / 2)) := by
  decide

theorem findChar_append_cons (w rest : Str) (c : Nat) (h : c ∉ w) :
    findChar (w ++ c :: rest) c = some w.length := by
  induction w with
  | nil => simp [findChar]
  | cons x xs ih =>
    have hx : ¬ x = c := fun hxc => h (by simp [hxc])
    have hxs : c ∉ xs := fun hc => h (by simp [hc])
    simp [findChar, hx, ih hxs]

/-- Framing a text that starts with a complete line. -/
theorem feed_line (w rest : Str) (h : NL ∉ w) :
    feed [] (w ++ NL :: rest) = (stripCR w :: (feed [] rest).1, (feed [] rest).2) := by
  have hfind := findChar_append_cons w rest NL h
  simp only [feed, List.nil_append]
  rw [frameLoop_some _ _ w.length (le_refl _) hfind]
  have ht : (w ++ NL :: rest).take w.length = w := by simp
  have hd : (w ++ NL :: rest).drop (w.length + 1) = rest := by
    rw [show w ++ NL :: rest = (w ++ [NL]) ++ rest by simp]
    rw [show w.length + 1 = (w ++ [NL]).length by simp]
    exact List.drop_left _ _
  rw [ht, hd, frameLoop_fuel ((w ++ NL :: rest).length - 1) rest.length rest
    (by simp) (le_refl _)]

theorem feed_nil : feed [] [] = ([], []) := rfl

/-- C10: with the interval `N = 2` and three non-empty lines `w1`, `w2`, `w3`
received on one connection into the initial state, in whatever chunks they
arrive: after the first two lines exactly one block has been printed, it shows
2 messages, and `updated` is clear; the third line is added without a further
block and sets `updated`; the next tick of the timer then prints exactly one
more block, showing 3 messages, and clears `updated`, and the tick after that
prints nothing. -/
theorem interval_two_three_lines (clk : Nat → Int) (w1 w2 w3 : Str)
    (h1 : NL ∉ w1) (h2 : NL ∉ w2) (h3 : NL ∉ w3)
    (n1 : stripCR w1 ≠ []) (n2 : stripCR w2 ≠ []) (n3 : stripCR w3 ≠ [])
    (chunks2 chunks3 : List Str)
    (hc2 : chunks2.flatten = w1 ++ NL :: (w2 ++ [NL]))
    (hc3 : chunks3.flatten = w1 ++ NL :: (w2 ++ NL :: (w3 ++ [NL]))) :
    ∃ (st2 st3 : ServerState) (r r3 : Report),
      handleClient clk 2 (chunks2.map RecvResult.data) [] ServerState.init
        = some ({ leftover := [], finished := false }, st2) ∧
      handleClient clk 2 (chunks3.map RecvResult.data) [] ServerState.init
        = some ({ leftover := [], finished := false }, st3) ∧
      st2.reports = [r] ∧ r.totalMessages = 2 ∧ st2.updated = false ∧
      st3 = processLogLine clk (stripCR w3) st2 ∧
      st3.reports = [r] ∧ st3.updated = true ∧ st3.totalMessages = 3 ∧
      (statsTimerTick clk st3).reports = [r, r3] ∧ r3.totalMessages = 3 ∧
      (statsTimerTick clk st3).updated = false ∧
      statsTimerTick clk (statsTimerTick clk st3) = statsTimerTick clk st3 := by
  have hf2 : feed [] chunks2.flatten = ([stripCR w1, stripCR w2], []) := by
    rw [hc2, feed_line _ _ h1, feed_line _ _ h2, feed_nil]
  have hf3 : feed [] chunks3.flatten = ([stripCR w1, stripCR w2, stripCR w3], []) := by
    rw [hc3, feed_line _ _ h1, feed_line _ _ h2, feed_line _ _ h3, feed_nil]
  obtain ⟨st2, hrun2, _, _, htot2, hrep2, hupd2⟩ :=
    foldlM_lines clk 2 (by decide) [stripCR w1, stripCR w2] (by
      intro l hl
      simp only [List.mem_cons, List.mem_singleton, List.not_mem_nil, or_false] at hl
      rcases hl with rfl | rfl
      · exact n1
      · exact n2)
  have hrep2' : st2.reports.map (fun r => r.totalMessages) = [2] := by
    rw [hrep2]
    simp only [List.length_cons, List.length_nil]
    decide
  obtain ⟨r, hr⟩ : ∃ r, st2.reports = [r] := by
    cases hreps : st2.reports with
    | nil => rw [hreps] at hrep2'; simp at hrep2'
    | cons a t =>
      cases t with
      | nil => exact ⟨a, rfl⟩
      | cons b t => rw [hreps] at hrep2'; simp at hrep2'
  have hrt : r.totalMessages = 2 := by
    rw [hr] at hrep2'
    simpa using hrep2'
  have hupd2' : st2.updated = false := by
    have : ¬ st2.updated = true := fun hu => (hupd2.1 hu) (by
      simp only [List.length_cons, List.length_nil]
      decide)
    simpa using this
  have htot2' : st2.totalMessages = 2 := by simpa using htot2
  have hstep3 : reportEveryN clk 2 (processLogLine clk (stripCR w3) st2)
      = some (processLogLine clk (stripCR w3) st2) := by
    apply reportEveryN_of_not_dvd clk 2 (by decide) _ 3
    · rw [processLogLine_cons clk _ st2 n3]
      simp [htot2']
    · decide
  have hp3 := processLogLine_cons clk (stripCR w3) st2 n3
  have hupd3 : (processLogLine clk (stripCR w3) st2).updated = true := by rw [hp3]
  have hrep3 : (processLogLine clk (stripCR w3) st2).reports = [r] := by rw [hp3]; exact hr
  have htot3 : (processLogLine clk (stripCR w3) st2).totalMessages = 3 := by
    rw [hp3]; simp [htot2']
  refine ⟨st2, processLogLine clk (stripCR w3) st2, r,
    { totalMessages := 3,
      byLevel := (processLogLine clk (stripCR w3) st2).levelCount,
      lastHour := ((processLogLine clk (stripCR w3) st2).entries.countP
        (fun e => decide (clk (processLogLine clk (stripCR w3) st2).clockReads
          - e.timestamp ≤ 3600)) : Nat),
      lengths := some ((processLogLine clk (stripCR w3) st2).minLen,
        (processLogLine clk (stripCR w3) st2).maxLen,
        (processLogLine clk (stripCR w3) st2).totalLen / 3) },
    ?_, ?_, hr, hrt, hupd2', rfl, hrep3, hupd3, htot3, ?_, rfl, ?_, ?_⟩
  · rw [handleClient_data clk 2 chunks2 [] ServerState.init (by simp), hf2]
    simp only [Nat.cast_ofNat] at hrun2
    rw [hrun2]
    rfl
  · rw [handleClient_data clk 2 chunks3 [] ServerState.init (by simp), hf3]
    simp only [Nat.cast_ofNat] at hrun2
    have : [stripCR w1, stripCR w2, stripCR w3] = [stripCR w1, stripCR w2] ++ [stripCR w3] := rfl
    rw [this, List.foldlM_append, hrun2]
    simp only [Option.some_bind, Option.bind_eq_bind, List.foldlM_cons, List.foldlM_nil, hstep3]
    rfl
  · unfold statsTimerTick
    rw [if_pos hupd3]
    unfold printStats
    simp [hrep3, htot3]
  · unfold statsTimerTick
    rw [if_pos hupd3]
    rfl
  · have hfalse : (statsTimerTick clk (processLogLine clk (stripCR w3) st2)).updated = false := by
      unfold statsTimerTick
      rw [if_pos hupd3]
      rfl
    generalize statsTimerTick clk (processLogLine clk (stripCR w3) st2) = s at hfalse
    unfold statsTimerTick
    simp [hfalse]

/-- The lines "a", "b", "c", the first two in one chunk, then all three in two
chunks cut inside the second line. -/
theorem interval_two_three_lines_witness :
    NL ∉ lit "a" ∧ stripCR (lit "a") ≠ [] ∧
    [lit "a\nb\n"].flatten = lit "a" ++ NL :: (lit "b" ++ [NL]) ∧
    [lit "a\n", lit "b\nc\n"].flatten
      = lit "a" ++ NL :: (lit "b" ++ NL :: (lit "c" ++ [NL])) ∧
    ∃ (st2 st3 : ServerState) (r r3 : Report),
      handleClient (fun _ => 0) 2 ([lit "a\nb\n"].map RecvResult.data) [] ServerState.init
        = some ({ leftover := [], finished := false }, st2) ∧
      handleClient (fun _ => 0) 2 ([lit "a\n", lit "b\nc\n"].map RecvResult.data) []
          ServerState.init
        = some ({ leftover := [], finished := false }, st3) ∧
      st2.reports = [r] ∧ r.totalMessages = 2 ∧ st2.updated = false ∧
      st3 = processLogLine (fun _ => 0) (stripCR (lit "c")) st2 ∧
      st3.reports = [r] ∧ st3.updated = true ∧ st3.totalMessages = 3 ∧
      (statsTimerTick (fun _ => 0) st3).reports = [r, r3] ∧ r3.totalMessages = 3 ∧
      (statsTimerTick (fun _ => 0) st3).updated = false ∧
      statsTimerTick (fun _ => 0) (statsTimerTick (fun _ => 0) st3)
        = statsTimerTick (fun _ => 0) st3 :=
  ⟨by decide, by decide, by decide, by decide,
   interval_two_three_lines (fun _ => 0) (lit "a") (lit "b") (lit "c")
     (by decide) (by decide) (by decide) (by decide) (by decide) (by decide)
     [lit "a\nb\n"] [lit "a\n", lit "b\nc\n"] (by decide) (by decide)⟩

/-! ## The periodic reporter -/

/-- C11: a tick of the timer prints a block exactly when `updated` is set; the
block shows the current total and per-level counts; after the tick `updated`
is clear, and the entries and every counter (total, per-level, min, max, sum
of lengths) are what they were.  After a report, printed by the timer or by a
handler, a tick prints nothing, also when an empty line was handled in between;
`updated` is set only by a line that adds an entry. -/
theorem statsTimerTick_effect (clk : Nat → Int) (st : ServerState) :
    (st.updated = true → ∃ r : Report,
      (statsTimerTick clk st).reports = st.reports ++ [r] ∧
      r.totalMessages = st.totalMessages ∧ r.byLevel = st.levelCount) ∧
    (st.updated = false → statsTimerTick clk st = st) ∧
    (statsTimerTick clk st).updated = false ∧
    ((statsTimerTick clk st).entries = st.entries ∧
      (statsTimerTick clk st).totalMessages = st.totalMessages ∧
      (statsTimerTick clk st).levelCount = st.levelCount ∧
      (statsTimerTick clk st).minLen = st.minLen ∧
      (statsTimerTick clk st).maxLen = st.maxLen ∧
      (statsTimerTick clk st).totalLen = st.totalLen) ∧
    statsTimerTick clk (printStats clk st) = printStats clk st ∧
    statsTimerTick clk (statsTimerTick clk st) = statsTimerTick clk st ∧
    statsTimerTick clk (processLogLine clk [] (printStats clk st))
      = printStats clk st ∧
    (∀ l : Str, (processLogLine clk l st).updated = true →
      st.updated = true ∨ ∃ e : LogEntry, (processLogLine clk l st).entries = st.entries ++ [e]) := by
  have hp : (printStats clk st).updated = false := rfl
  refine ⟨?_, ?_, ?_, ?_, ?_, ?_, ?_, ?_⟩
  · intro h
    unfold statsTimerTick
    rw [if_pos h]
    exact ⟨_, rfl, rfl, rfl⟩
  · intro h
    unfold statsTimerTick
    simp [h]
  · unfold statsTimerTick
    by_cases h : st.updated = true
    · rw [if_pos h]; rfl
    · rw [if_neg h]; simpa using h
  · unfold statsTimerTick
    by_cases h : st.updated = true
    · rw [if_pos h]; exact ⟨rfl, rfl, rfl, rfl, rfl, rfl⟩
    · rw [if_neg h]; exact ⟨rfl, rfl, rfl, rfl, rfl, rfl⟩
  · unfold statsTimerTick
    simp [hp]
  · unfold statsTimerTick
    by_cases h : st.updated = true
    · simp [h, hp]
    · simp [h]
  · rw [processLogLine_nil clk [] _ rfl]
    unfold statsTimerTick
    simp [hp]
  · intro l h
    by_cases hl : l = []
    · rw [processLogLine_nil clk l st hl] at h
      exact Or.inl h
    · rw [processLogLine_cons clk l st hl]
      exact Or.inr ⟨_, rfl⟩

/-- C16 as amended: the last-hour count of a block is the number of stored
entries `e` with `now - e.timestamp ≤ 3600`, `now` being the clock value read by
`printStats`; an entry stamped later than `now` is among them; when no entry
is stamped later than `now`, it is the number of entries with
`0 ≤ now - e.timestamp ≤ 3600`. -/
theorem lastHour_count (clk : Nat → Int) (st : ServerState) :
    (printStats clk st).reports.getLast?.map (fun r => r.lastHour)
      = some ((st.entries.countP
          (fun e => decide (clk st.clockReads - e.timestamp ≤ 3600)) : Nat) : Int) ∧
    (∀ e ∈ st.entries, clk st.clockReads < e.timestamp →
      decide (clk st.clockReads - e.timestamp ≤ 3600) = true) ∧
    ((∀ e ∈ st.entries, e.timestamp ≤ clk st.clockReads) →
      (printStats clk st).reports.getLast?.map (fun r => r.lastHour)
        = some ((st.entries.countP
            (fun e => decide (0 ≤ clk st.clockReads - e.timestamp ∧
              clk st.clockReads - e.timestamp ≤ 3600)) : Nat) : Int)) := by
  have h1 : (printStats clk st).reports.getLast?.map (fun r => r.lastHour)
      = some ((st.entries.countP
          (fun e => decide (clk st.clockReads - e.timestamp ≤ 3600)) : Nat) : Int) := by
    simp [printStats]
  refine ⟨h1, ?_, ?_⟩
  · intro e _ h
    simp only [decide_eq_true_eq]
    omega
  · intro h
    rw [h1]
    congr 2
    apply List.countP_congr
    intro e he
    have := h e he
    simp only [decide_eq_true_eq]
    constructor
    · intro h2; exact ⟨by omega, h2⟩
    · intro h2; exact h2.2

/-- C16, as stated, fails when the clock was set back between the arrival of a
line and the report: the entry stamped 100 is counted at `now = 0`, although
`0 ≤ now - timestamp` does not hold for it. -/
theorem lastHour_counterexample :
    (processLogLine (fun k => if k = 0 then 100 else 0) (lit "a") ServerState.init).entries.map
        (fun e => e.timestamp) = [100] ∧
    (printStats (fun k => if k = 0 then 100 else 0)
        (processLogLine (fun k => if k = 0 then 100 else 0) (lit "a")
          ServerState.init)).reports.map (fun r => r.lastHour) = [1] ∧
    (processLogLine (fun k => if k = 0 then 100 else 0) (lit "a") ServerState.init).entries.countP
        (fun e => decide (0 ≤ (0 : Int) - e.timestamp ∧ (0 : Int) - e.timestamp ≤ 3600)) = 0 := by
  decide

/-! ## Closing a connection -/

/-- C12: when `recv` returns 0 while the partial-line buffer `leftover` is not
empty, the handler does with it what it does with a complete line: the buffer
is classified and added as one entry, then the every-N check runs (the result
is the one of `reportEveryN` after `processLogLine`, and, for a buffer without
`'\n'` and without final `'\r'`, the one of the extraction loop on the buffer
followed by `'\n'`); with an empty buffer the state is left alone.  In both
cases the receive loop is left, whatever `recv` would return next. -/
theorem close_flushes_remainder (clk : Nat → Int) (N : Int) (rest : List RecvResult)
    (leftover : Str) (st : ServerState) (hne : leftover ≠ []) (hN : N ≠ 0) :
    (∃ st1 : ServerState,
      handleClient clk N (RecvResult.closed :: rest) leftover st
        = some ({ leftover := leftover, finished := true }, st1) ∧
      reportEveryN clk N (processLogLine clk leftover st) = some st1 ∧
      st1.entries = st.entries ++
        [{ message := leftover, timestamp := clk st.clockReads,
           level := determineLevel leftover }] ∧
      st1.totalMessages = st.totalMessages + 1 ∧
      (st1.reports.length =
        if Int.tmod (st.totalMessages + 1) N = 0 then st.reports.length + 1
        else st.reports.length) ∧
      (NL ∉ leftover → stripCR leftover = leftover →
        drainLines clk N (leftover ++ [NL]).length (leftover ++ [NL]) st = some ([], st1))) ∧
    handleClient clk N (RecvResult.closed :: rest) [] st
      = some ({ leftover := [], finished := true }, st) := by
  refine ⟨?_, rfl⟩
  have hp := processLogLine_cons clk leftover st hne
  have hempty : (!leftover.isEmpty) = true := by
    cases leftover with
    | nil => exact absurd rfl hne
    | cons c cs => rfl
  by_cases hmod : Int.tmod (st.totalMessages + 1) N = 0
  · have hrep : reportEveryN clk N (processLogLine clk leftover st)
        = some (printStats clk (processLogLine clk leftover st)) := by
      unfold reportEveryN
      rw [if_neg hN, hp, if_pos hmod]
    refine ⟨printStats clk (processLogLine clk leftover st), ?_, hrep, ?_, ?_, ?_, ?_⟩
    · simp only [handleClient, hempty, if_true, hrep]
    · rw [hp]; rfl
    · rw [hp]; rfl
    · rw [hp, if_pos hmod]
      simp [printStats]
    · intro hnl hcr
      have hfind := findChar_append_cons leftover [] NL hnl
      rw [drainLines_some clk N _ _ st leftover.length (le_refl _) hfind]
      have ht : (leftover ++ [NL]).take leftover.length = leftover := by simp
      have hd : (leftover ++ [NL]).drop (leftover.length + 1) = [] := by simp
      rw [ht, hd, hcr, hrep]
      simp only [Option.some_bind, Option.bind_eq_bind, List.length_append, List.length_singleton,
        Nat.add_sub_cancel]
      exact drainLines_none clk N _ [] _ rfl
  · have hrep : reportEveryN clk N (processLogLine clk leftover st)
        = some (processLogLine clk leftover st) := by
      unfold reportEveryN
      rw [if_neg hN, hp, if_neg hmod]
    refine ⟨processLogLine clk leftover st, ?_, hrep, ?_, ?_, ?_, ?_⟩
    · simp only [handleClient, hempty, if_true, hrep]
    · rw [hp]
    · rw [hp]
    · rw [hp, if_neg hmod]
    · intro hnl hcr
      have hfind := findChar_append_cons leftover [] NL hnl
      rw [drainLines_some clk N _ _ st leftover.length (le_refl _) hfind]
      have ht : (leftover ++ [NL]).take leftover.length = leftover := by simp
      have hd : (leftover ++ [NL]).drop (leftover.length + 1) = [] := by simp
      rw [ht, hd, hcr, hrep]
      simp only [Option.some_bind, Option.bind_eq_bind, List.length_append, List.length_singleton,
        Nat.add_sub_cancel]
      exact drainLines_none clk N _ [] _ rfl

/-- The buffer "tail" flushed at the close with `N = 1`, further results of
`recv` being ignored. -/
theorem close_flushes_remainder_witness :
    lit "tail" ≠ [] ∧ (1 : Int) ≠ 0 ∧
    ∃ st1 : ServerState,
      handleClient (fun _ => 0) 1 [RecvResult.closed, RecvResult.data (lit "x\n")]
          (lit "tail") ServerState.init
        = some ({ leftover := lit "tail", finished := true }, st1) ∧
      st1.totalMessages = 1 ∧ st1.reports.length = 1 :=
  ⟨by decide, by decide,
   (close_flushes_remainder (fun _ => 0) 1 [RecvResult.data (lit "x\n")] (lit "tail")
      ServerState.init (by decide) (by decide)).1.imp
     (fun _ h => ⟨h.1, h.2.2.2.1, h.2.2.2.2.1⟩)⟩

/-! ## Start-up -/

theorem takeWhile_append_of_all (p : Nat → Bool) (ds t : Str) (hds : ∀ d ∈ ds, p d = true)
    (ht : ∀ c ∈ t.head?, p c = false) : (ds ++ t).takeWhile p = ds := by
  induction ds with
  | nil =>
    cases t with
    | nil => rfl
    | cons c cs =>
      have := ht c (by simp)
      simp [List.takeWhile, this]
  | cons d ds ih =>
    have hd := hds d (by simp)
    simp only [List.cons_append, List.takeWhile_cons, hd, if_true]
    rw [ih (fun x hx => hds x (by simp [hx]))]

/-- What follows the digits of a parameter is ignored by `stoi`. -/
theorem stoi_digits_append (ds t : Str) (hne : ds ≠ []) (hds : ∀ d ∈ ds, isdigit d = true)
    (ht : ∀ c ∈ t.head?, isdigit c = false) : stoi (ds ++ t) = stoi ds := by
  cases ds with
  | nil => exact absurd rfl hne
  | cons d ds =>
    have hd : isdigit d = true := hds d (by simp)
    have hdb : 48 ≤ d ∧ d ≤ 57 := by simpa [isdigit] using hd
    have hsp : isspace d = false := by
      simp only [isspace, Bool.or_eq_false_iff, beq_eq_false_iff_ne, ne_eq, Bool.and_eq_false_iff,
        decide_eq_false_iff_not]
      omega
    have h45 : ¬ d = 45 := by omega
    have h43 : ¬ d = 43 := by omega
    have htw := takeWhile_append_of_all isdigit (d :: ds) t hds ht
    have htw2 := takeWhile_append_of_all isdigit (d :: ds) [] hds (by simp)
    simp only [List.append_nil] at htw2
    have e45 : (some d == some 45) = false := by simp [h45]
    have e43 : (some d == some 43) = false := by simp [h43]
    unfold stoi
    simp only [List.cons_append, List.dropWhile_cons, hsp, List.head?_cons, e45, e43,
      Bool.or_self, if_false, Bool.false_eq_true]
    rw [← List.cons_append, htw, htw2]

/-- C17 as amended: with fewer than three parameters `main` writes the usage
text and returns 1; with three or more, the timer is started and the socket
created exactly when `std::stoi` converts the port, `N` and `T` parameters, and
otherwise the exception thrown by `std::stoi` ends the process before that;
`std::stoi` throws on a parameter without digits and ignores what follows the
digits of a parameter. -/
theorem main_startup (argv : List Str) :
    (argv.length < 4 → main argv = Startup.usage 1) ∧
    (4 ≤ argv.length → ∀ port N T : Int,
      (main argv = Startup.started port N T ↔
        stoi (argv.getD 1 []) = StoiResult.value port ∧
        stoi (argv.getD 2 []) = StoiResult.value N ∧
        stoi (argv.getD 3 []) = StoiResult.value T)) ∧
    (4 ≤ argv.length →
      ((∀ v : Int, stoi (argv.getD 1 []) ≠ StoiResult.value v) ∨
        (∀ v : Int, stoi (argv.getD 2 []) ≠ StoiResult.value v) ∨
        (∀ v : Int, stoi (argv.getD 3 []) ≠ StoiResult.value v)) →
      main argv = Startup.terminated) ∧
    (∀ s : Str, (∀ c ∈ s, isdigit c = false) → stoi s = StoiResult.invalid_argument) ∧
    (∀ ds t : Str, ds ≠ [] → (∀ d ∈ ds, isdigit d = true) →
      (∀ c ∈ t.head?, isdigit c = false) → stoi (ds ++ t) = stoi ds) := by
  refine ⟨?_, ?_, ?_, ?_, stoi_digits_append⟩
  · intro h
    unfold main
    rw [if_pos h]
  · intro h port N T
    have h4 : ¬ argv.length < 4 := by omega
    unfold main
    rw [if_neg h4]
    cases h1 : stoi (argv.getD 1 []) <;> cases h2 : stoi (argv.getD 2 []) <;>
      cases h3 : stoi (argv.getD 3 []) <;> simp
  · intro h hbad
    have h4 : ¬ argv.length < 4 := by omega
    unfold main
    rw [if_neg h4]
    cases h1 : stoi (argv.getD 1 []) <;> cases h2 : stoi (argv.getD 2 []) <;>
      cases h3 : stoi (argv.getD 3 []) <;> simp_all
  · intro s hs
    unfold stoi
    have : (List.takeWhile isdigit
        (if ((s.dropWhile isspace).head? == some 45 || (s.dropWhile isspace).head? == some 43) = true
          then (s.dropWhile isspace).tail else s.dropWhile isspace)) = [] := by
      have hsub : ∀ c ∈ (if ((s.dropWhile isspace).head? == some 45
          || (s.dropWhile isspace).head? == some 43) = true
          then (s.dropWhile isspace).tail else s.dropWhile isspace), isdigit c = false := by
        intro c hc
        apply hs
        split at hc
        · exact (List.dropWhile_suffix _).subset (List.mem_of_mem_tail hc)
        · exact (List.dropWhile_suffix _).subset hc
      generalize (if ((s.dropWhile isspace).head? == some 45
          || (s.dropWhile isspace).head? == some 43) = true
          then (s.dropWhile isspace).tail else s.dropWhile isspace) = u at hsub
      cases u with
      | nil => rfl
      | cons c cs => simp [List.takeWhile, hsub c (by simp)]
    simp only [this, List.isEmpty_nil, if_true]

/-- C17, as stated, fails: the `N` parameter "5x" is not a well-formed integer,
yet `main` goes on to start the timer and the socket with `N = 5`; and for the
port parameter "abc" the process is ended by the exception of `std::stoi`, not
by the usage text and a return. -/
theorem main_startup_counterexample :
    main [lit "stats", lit "8080", lit "5x", lit "10"] = Startup.started 8080 5 10 ∧
    main [lit "stats", lit "abc", lit "5", lit "10"] = Startup.terminated ∧
    main [lit "stats", lit "abc", lit "5", lit "10"] ≠ Startup.usage 1 := by
  decide

/-- C19: the parameter "0" is accepted for `N`, `main` hands `N = 0` to the
handlers, and the check `totalMessages % N` after the first line, as well as
the one of the closing flush, divides by zero. -/
theorem interval_zero_divides_by_zero :
    main [lit "stats", lit "8080", lit "0", lit "10"] = Startup.started 8080 0 10 ∧
    handleClient (fun _ => 0) 0 [RecvResult.data (lit "a\n")] [] ServerState.init = none ∧
    handleClient (fun _ => 0) 0 [RecvResult.data (lit "a"), RecvResult.closed] []
      ServerState.init = none := by
  decide

/-! ## The queue between the input loop and the logging worker -/

theorem LogQueue.exec_push_cons (s : LogQueue) (m : LogMessage) (ops : List QueueOp) :
    LogQueue.exec s (QueueOp.push m :: ops) = LogQueue.exec (s.push m) ops := rfl

theorem LogQueue.exec_close_cons (s : LogQueue) (ops : List QueueOp) :
    LogQueue.exec s (QueueOp.close :: ops) = LogQueue.exec s.close ops := rfl

theorem LogQueue.exec_pop_cons (m : LogMessage) (q : List LogMessage) (c : Bool)
    (ops : List QueueOp) :
    LogQueue.exec { q_ := m :: q, closed_ := c } (QueueOp.pop :: ops)
      = (LogQueue.exec { q_ := q, closed_ := c } ops).map (fun p => (some m :: p.1, p.2)) := by
  simp only [LogQueue.exec, LogQueue.pop]
  cases LogQueue.exec { q_ := q, closed_ := c } ops <;> rfl

theorem LogQueue.exec_pop_nil (ops : List QueueOp) :
    LogQueue.exec { q_ := [], closed_ := true } (QueueOp.pop :: ops)
      = (LogQueue.exec { q_ := [], closed_ := true } ops).map (fun p => (none :: p.1, p.2)) := by
  simp only [LogQueue.exec, LogQueue.pop]
  cases LogQueue.exec { q_ := [], closed_ := true } ops <;> rfl

theorem LogQueue.exec_pushes (ms : List LogMessage) (s : LogQueue) (ops : List QueueOp) :
    LogQueue.exec s (ms.map QueueOp.push ++ ops)
      = LogQueue.exec { q_ := s.q_ ++ ms, closed_ := s.closed_ } ops := by
  induction ms generalizing s with
  | nil => simp
  | cons m ms ih =>
    rw [List.map_cons, List.cons_append, LogQueue.exec_push_cons, ih]
    simp [LogQueue.push]

theorem LogQueue.exec_pops_closed (ms : List LogMessage) :
    LogQueue.exec { q_ := ms, closed_ := true } (List.replicate (ms.length + 1) QueueOp.pop)
      = some (ms.map some ++ [none], { q_ := [], closed_ := true }) := by
  induction ms with
  | nil => rfl
  | cons m ms ih =>
    rw [List.length_cons, List.replicate_succ, LogQueue.exec_pop_cons, ih]
    rfl

/-- Whatever calls complete, in whatever order: the messages returned by the
`pop` calls, followed by those still pending, are the messages that were
pending at the start followed by the pushed ones, in the order of the pushes. -/
theorem LogQueue.exec_fifo (ops : List QueueOp) (s s1 : LogQueue)
    (rs : List (Option LogMessage)) (h : LogQueue.exec s ops = some (rs, s1)) :
    rs.filterMap id ++ s1.q_
      = s.q_ ++ ops.filterMap (fun op => match op with
          | QueueOp.push m => some m
          | _ => none) := by
  induction ops generalizing s rs with
  | nil =>
    simp only [LogQueue.exec, Option.some.injEq, Prod.mk.injEq] at h
    obtain ⟨rfl, rfl⟩ := h
    simp
  | cons op ops ih =>
    cases op with
    | push m =>
      simp only [LogQueue.exec] at h
      have := ih _ _ h
      simpa [LogQueue.push] using this
    | close =>
      simp only [LogQueue.exec] at h
      have := ih _ _ h
      simpa [LogQueue.close] using this
    | pop =>
      obtain ⟨q, c⟩ := s
      cases q with
      | nil =>
        cases c with
        | false => simp [LogQueue.exec, LogQueue.pop] at h
        | true =>
          simp only [LogQueue.exec, LogQueue.pop] at h
          cases hrec : LogQueue.exec { q_ := [], closed_ := true } ops with
          | none => simp [hrec] at h
          | some p =>
            obtain ⟨rs1, s2⟩ := p
            simp only [hrec, Option.some.injEq, Prod.mk.injEq] at h
            obtain ⟨rfl, rfl⟩ := h
            have := ih _ _ hrec
            simpa using this
      | cons m q =>
        simp only [LogQueue.exec, LogQueue.pop] at h
        cases hrec : LogQueue.exec { q_ := q, closed_ := c } ops with
        | none => simp [hrec] at h
        | some p =>
          obtain ⟨rs1, s2⟩ := p
          simp only [hrec, Option.some.injEq, Prod.mk.injEq] at h
          obtain ⟨rfl, rfl⟩ := h
          have := ih _ _ hrec
          simp only [List.filterMap_cons, id_eq, List.cons_append]
          simpa using this

/-- C13: after `m1 .. mn` were pushed on a fresh queue and `close()` was
called, the next `n` calls of `pop()` return `m1, .., mn` in this order,
unchanged, and the call after them returns `nullopt`; on a queue with a pending
message, open or closed, `pop()` returns the oldest one and removes it; and in
every run the messages come out in the order in which they went in. -/
theorem LogQueue.fifo_then_end (ms : List LogMessage) :
    LogQueue.exec LogQueue.init
        (ms.map QueueOp.push ++ QueueOp.close :: List.replicate (ms.length + 1) QueueOp.pop)
      = some (ms.map some ++ [none], { q_ := [], closed_ := true }) ∧
    (∀ (m : LogMessage) (rest : List LogMessage) (c : Bool),
      LogQueue.pop { q_ := m :: rest, closed_ := c }
        = some (some m, { q_ := rest, closed_ := c })) ∧
    (∀ (ops : List QueueOp) (s s1 : LogQueue) (rs : List (Option LogMessage)),
      LogQueue.exec s ops = some (rs, s1) →
      rs.filterMap id ++ s1.q_
        = s.q_ ++ ops.filterMap (fun op => match op with
            | QueueOp.push m => some m
            | _ => none)) := by
  refine ⟨?_, fun m rest c => rfl, LogQueue.exec_fifo⟩
  rw [LogQueue.exec_pushes, LogQueue.exec_close_cons]
  simp only [LogQueue.close, LogQueue.init, List.nil_append]
  exact LogQueue.exec_pops_closed ms

theorem LogQueue.exec_closed_no_push (ops : List QueueOp) (q : List LogMessage)
    (hnp : ∀ op ∈ ops, ∀ m : LogMessage, op ≠ QueueOp.push m) :
    LogQueue.exec { q_ := q, closed_ := true } ops
      = some ((q.map some).take (ops.count QueueOp.pop)
            ++ List.replicate (ops.count QueueOp.pop - q.length) none,
          { q_ := q.drop (ops.count QueueOp.pop), closed_ := true }) := by
  induction ops generalizing q with
  | nil => simp [LogQueue.exec]
  | cons op ops ih =>
    have hrest : ∀ op ∈ ops, ∀ m : LogMessage, op ≠ QueueOp.push m :=
      fun o ho => hnp o (by simp [ho])
    cases op with
    | push m => exact absurd rfl (hnp (QueueOp.push m) (by simp) m)
    | close =>
      rw [LogQueue.exec_close_cons]
      simp only [LogQueue.close]
      rw [ih q hrest]
      simp [List.count_cons]
    | pop =>
      cases q with
      | nil =>
        rw [LogQueue.exec_pop_nil, ih [] hrest]
        simp [List.count_cons, List.replicate_succ]
      | cons m q =>
        rw [LogQueue.exec_pop_cons, ih q hrest]
        simp [List.count_cons]

theorem LogQueue.exec_closed_total (ops : List QueueOp) (s : LogQueue) (hc : s.closed_ = true) :
    ∃ (rs : List (Option LogMessage)) (s1 : LogQueue),
      LogQueue.exec s ops = some (rs, s1) ∧ s1.closed_ = true := by
  induction ops generalizing s with
  | nil => exact ⟨[], s, rfl, hc⟩
  | cons op ops ih =>
    cases op with
    | push m =>
      simp only [LogQueue.exec]
      exact ih (s.push m) hc
    | close =>
      simp only [LogQueue.exec]
      exact ih s.close rfl
    | pop =>
      obtain ⟨q, c⟩ := s
      simp only at hc
      subst hc
      cases q with
      | nil =>
        obtain ⟨rs, s1, h1, h2⟩ := ih { q_ := [], closed_ := true } rfl
        exact ⟨none :: rs, s1, by rw [LogQueue.exec_pop_nil, h1]; rfl, h2⟩
      | cons m q =>
        obtain ⟨rs, s1, h1, h2⟩ := ih { q_ := q, closed_ := true } rfl
        exact ⟨some m :: rs, s1, by rw [LogQueue.exec_pop_cons, h1]; rfl, h2⟩

/-- C14 as amended: once the queue is closed it stays closed and no `pop()`
blocks, whatever calls follow; when only `pop()` and `close()` calls follow the
close, the `pop()` calls return the messages pending at the close, oldest
first, and `nullopt` from then on, so a `pop()` after one that returned
`nullopt` returns `nullopt`; a repeated `close()` changes nothing; `push`
appends its message also on a closed queue. -/
theorem LogQueue.closed_drains (s : LogQueue) (ops : List QueueOp) (hc : s.closed_ = true)
    (hnp : ∀ op ∈ ops, ∀ m : LogMessage, op ≠ QueueOp.push m) :
    LogQueue.exec s ops
      = some ((s.q_.map some).take (ops.count QueueOp.pop)
            ++ List.replicate (ops.count QueueOp.pop - s.q_.length) none,
          { q_ := s.q_.drop (ops.count QueueOp.pop), closed_ := true }) ∧
    (∀ anyOps : List QueueOp, ∃ (rs : List (Option LogMessage)) (s1 : LogQueue),
      LogQueue.exec s anyOps = some (rs, s1) ∧ s1.closed_ = true) ∧
    s.close = s ∧
    (∀ t : LogQueue, t.close.close = t.close) ∧
    (∀ m : LogMessage, (s.push m).q_ = s.q_ ++ [m] ∧ (s.push m).closed_ = true) := by
  obtain ⟨q, c⟩ := s
  simp only at hc
  subst hc
  exact ⟨LogQueue.exec_closed_no_push ops q hnp,
    fun anyOps => LogQueue.exec_closed_total anyOps _ rfl, rfl, fun t => rfl,
    fun m => ⟨rfl, rfl⟩⟩

/-- Two messages pending at the close, then three `pop()` calls and a second
`close()`. -/
theorem LogQueue.closed_drains_witness :
    ({ q_ := [{ text := lit "a", level := LogLevel.Info },
              { text := lit "b", level := LogLevel.Error }], closed_ := true } : LogQueue).closed_
      = true ∧
    (∀ op ∈ [QueueOp.pop, QueueOp.pop, QueueOp.close, QueueOp.pop],
      ∀ m : LogMessage, op ≠ QueueOp.push m) ∧
    LogQueue.exec
        { q_ := [{ text := lit "a", level := LogLevel.Info },
                 { text := lit "b", level := LogLevel.Error }], closed_ := true }
        [QueueOp.pop, QueueOp.pop, QueueOp.close, QueueOp.pop]
      = some ([some { text := lit "a", level := LogLevel.Info },
               some { text := lit "b", level := LogLevel.Error }, none],
          { q_ := [], closed_ := true }) :=
  ⟨rfl, by simp,
   (LogQueue.closed_drains
      { q_ := [{ text := lit "a", level := LogLevel.Info },
               { text := lit "b", level := LogLevel.Error }], closed_ := true }
      [QueueOp.pop, QueueOp.pop, QueueOp.close, QueueOp.pop] rfl (by simp)).1⟩

/-- C14, as stated, fails: after `close()` and a `pop()` that returned
`nullopt`, a `push` is still enqueued, and the `pop()` that follows returns
its message instead of `nullopt`. -/
theorem LogQueue.push_after_close_counterexample :
    LogQueue.exec LogQueue.init
        [QueueOp.close, QueueOp.pop,
         QueueOp.push { text := lit "late", level := LogLevel.Info }, QueueOp.pop]
      = some ([none, some { text := lit "late", level := LogLevel.Info }],
          { q_ := [], closed_ := true }) := by
  decide

/-! ## The two logger backends -/

theorem sendLoop_complete (toSend : Nat) (results : List Int) (totalSent : Nat)
    (hpos : ∀ r ∈ results, 1 ≤ r) (hlen : toSend ≤ totalSent + results.length) :
    toSend ≤ sendLoop toSend results totalSent := by
  induction results generalizing totalSent with
  | nil => simpa [sendLoop] using hlen
  | cons r rs ih =>
    unfold sendLoop
    by_cases hlt : totalSent < toSend
    · have hr : 1 ≤ r := hpos r (by simp)
      have hne : ¬ r = -1 := by omega
      rw [if_pos hlt, if_neg hne]
      apply ih _ (fun x hx => hpos x (by simp [hx]))
      simp only [List.length_cons] at hlen
      omega
    · rw [if_neg hlt]
      omega

theorem message_in_record (time : Str) (level : LogLevel) (message : Str) :
    message <:+: formatRecord time level message := by
  unfold formatRecord
  exact ⟨lit "[" ++ time ++ lit "] " ++ lit "[" ++ logLevelToString level ++ lit "] ", [NL], rfl⟩

/-- C15: for the file logger with an open file, and for the socket logger with
a valid socket on which every `send` succeeds, `log(message, level)` appends
the record `[time] [LEVEL] message` exactly when `level` is not greater than
the threshold, where `Error < Warning < Info`, and does nothing otherwise; the
record contains the message; the threshold is the level given to the
constructor or to the latest `setLogLevel`, it is what `getLogLevel` returns,
and `log` does not change it. -/
theorem log_threshold (time message : Str) (level : LogLevel) (s : Logger) (k : SocketLogger)
    (results : List Int) (hopen : s.isOpen = true) (hsock : 0 ≤ k.sock_)
    (hsend : ∀ r ∈ results, 1 ≤ r)
    (hlen : (formatRecord time level message).length ≤ results.length) :
    (level.toInt ≤ s.getLogLevel.toInt →
      (Logger.log time s message level).written
        = s.written ++ formatRecord time level message) ∧
    (¬ level.toInt ≤ s.getLogLevel.toInt → Logger.log time s message level = s) ∧
    (level.toInt ≤ k.getLogLevel.toInt →
      (SocketLogger.log time results k message level).sentBytes
        = k.sentBytes ++ formatRecord time level message) ∧
    (¬ level.toInt ≤ k.getLogLevel.toInt →
      SocketLogger.log time results k message level = k) ∧
    message <:+: formatRecord time level message ∧
    (LogLevel.Error.toInt < LogLevel.Warning.toInt ∧
      LogLevel.Warning.toInt < LogLevel.Info.toInt) ∧
    (∀ (o : Bool) (l : LogLevel), (Logger.create o l).getLogLevel = l) ∧
    (∀ (fd : Int) (l : LogLevel), (SocketLogger.create fd l).getLogLevel = l) ∧
    (∀ l : LogLevel, (s.setLogLevel l).getLogLevel = l ∧ (k.setLogLevel l).getLogLevel = l) ∧
    ((Logger.log time s message level).getLogLevel = s.getLogLevel ∧
      (SocketLogger.log time results k message level).getLogLevel = k.getLogLevel) := by
  refine ⟨?_, ?_, ?_, ?_, message_in_record time level message, by decide,
    fun o l => rfl, fun fd l => rfl, fun l => ⟨rfl, rfl⟩, ?_, ?_⟩
  · intro h
    unfold Logger.log
    rw [if_neg (by simpa [Logger.getLogLevel] using h), if_pos hopen]
  · intro h
    unfold Logger.log
    rw [if_pos (by simpa [Logger.getLogLevel] using h)]
  · intro h
    have hcond : ¬ ((decide (level.toInt > k.logLevel_.toInt) || decide (k.sock_ < 0)) = true) := by
      simp only [Bool.or_eq_true, decide_eq_true_eq, not_or, not_lt]
      exact ⟨by simpa [SocketLogger.getLogLevel] using h, hsock⟩
    unfold SocketLogger.log
    rw [if_neg hcond]
    have hall := sendLoop_complete (formatRecord time level message).length results 0 hsend
      (by omega)
    simp only [List.take_of_length_le hall]
  · intro h
    have hcond : (decide (level.toInt > k.logLevel_.toInt) || decide (k.sock_ < 0)) = true := by
      simp only [Bool.or_eq_true, decide_eq_true_eq]
      exact Or.inl (by simpa [SocketLogger.getLogLevel] using h)
    unfold SocketLogger.log
    rw [if_pos hcond]
  · unfold Logger.log
    split
    · rfl
    · rfl
  · unfold SocketLogger.log
    split <;> rfl

/-- The test `LoggerTest.LoggingLevels`: with the threshold Warning, the
messages of level Warning and Error are in the file and the one of level Info
is not; the same messages sent through a socket logger in one `send` each. -/
theorem log_threshold_witness :
    (Logger.create true LogLevel.Warning).isOpen = true ∧
    (0 : Int) ≤ (SocketLogger.create 3 LogLevel.Warning).sock_ ∧
    (Logger.log (lit "2025-01-01 10:00:00") (Logger.create true LogLevel.Warning)
        (lit "Error message") LogLevel.Error).written
      = [] ++ formatRecord (lit "2025-01-01 10:00:00") LogLevel.Error (lit "Error message") ∧
    (find (Logger.log (lit "t") (Logger.log (lit "t") (Logger.log (lit "t")
          (Logger.create true LogLevel.Warning)
          (lit "Info message") LogLevel.Info)
          (lit "Warning message") LogLevel.Warning)
          (lit "Error message") LogLevel.Error).written (lit "Warning message")).isSome = true ∧
    (find (Logger.log (lit "t") (Logger.log (lit "t") (Logger.log (lit "t")
          (Logger.create true LogLevel.Warning)
          (lit "Info message") LogLevel.Info)
          (lit "Warning message") LogLevel.Warning)
          (lit "Error message") LogLevel.Error).written (lit "Error message")).isSome = true ∧
    find (Logger.log (lit "t") (Logger.log (lit "t") (Logger.log (lit "t")
          (Logger.create true LogLevel.Warning)
          (lit "Info message") LogLevel.Info)
          (lit "Warning message") LogLevel.Warning)
          (lit "Error message") LogLevel.Error).written (lit "Info message") = none :=
  ⟨rfl, by decide,
   (log_threshold (lit "2025-01-01 10:00:00") (lit "Error message") LogLevel.Error
      (Logger.create true LogLevel.Warning) (SocketLogger.create 3 LogLevel.Warning)
      (List.replicate 64 1) rfl (by decide) (by decide) (by decide)).1 (by decide),
   by decide, by decide, by decide⟩

end LogSystem
